import Mathlib

/-!
Locator codec, timeline ordering and alert allowances.

A shallow embedding of

* `pkg/monitor/monitorapi/identification_pod.go` (locator codec, `ByTimeWithNamespacedPods`),
* `pkg/synthetictests/allowedalerts/matches.go` (allowance calculators),

followed by the properties established about them.

Go `string` values are embedded as `String`; the functions of package `strings` that the
code calls are written out over the character lists.  Go compares and splits strings bytewise;
on UTF-8 text splitting on an ASCII separator and lexicographic comparison agree with the
character-wise versions used here.
-/

namespace Monitorapi

/-! ## Package `strings` -/

/-- Pieces of a character list between occurrences of `sep`; the list is never empty. -/
def splitChars (sep : Char) : List Char → List (List Char)
  | [] => [[]]
  | c :: cs =>
    if c = sep then [] :: splitChars sep cs
    else
      match splitChars sep cs with
      | [] => [[c]]
      | t :: ts => (c :: t) :: ts

/-- Go `strings.Split(s, sep)` for a one-character separator. -/
def stringsSplit (s : String) (sep : Char) : List String :=
  (splitChars sep s.data).map String.mk

/-- Text before and after the first `sep`, when there is one. -/
def cutChars (sep : Char) : List Char → Option (List Char × List Char)
  | [] => none
  | c :: cs =>
    if c = sep then some ([], cs)
    else
      match cutChars sep cs with
      | some (k, v) => some (c :: k, v)
      | none => none

/-- Split of a token on its first `sep` (Go `strings.Cut`): `none` when `sep` does not occur. -/
def stringsCut (s : String) (sep : Char) : Option (String × String) :=
  match cutChars sep s.data with
  | some (k, v) => some (String.mk k, String.mk v)
  | none => none

/-- Whether `sub` occurs in the character list as a contiguous block. -/
def containsChars : List Char → List Char → Bool
  | [], sub => sub.isEmpty
  | c :: cs, sub => sub.isPrefixOf (c :: cs) || containsChars cs sub

/-- Go `strings.Contains(s, substr)`. -/
def stringsContains (s substr : String) : Bool :=
  containsChars s.data substr.data

/-- Lexicographic "less than" on character lists, by code point. -/
def ltChars : List Char → List Char → Bool
  | _, [] => false
  | [], _ :: _ => true
  | a :: as, b :: bs =>
    if a.toNat < b.toNat then true
    else if b.toNat < a.toNat then false
    else ltChars as bs

/-- Go `s < t` on strings. -/
def stringLt (s t : String) : Bool :=
  ltChars s.data t.data

/-! ## Go maps from string to string -/

/-- A `map[string]string`: the value stored under each key, if any. -/
abbrev StringMap := String → Option String

/-- The map literal `map[string]string{}`. -/
def StringMap.empty : StringMap := fun _ => none

/-- The assignment `m[k] = v`. -/
def StringMap.set (m : StringMap) (k v : String) : StringMap :=
  fun k' => if k' = k then some v else m k'

/-- The index expression `m[k]`: the zero value `""` when the key is absent. -/
def StringMap.index (m : StringMap) (k : String) : String :=
  (m k).getD ""

/-! ## Locator decoding -/

/-- Modelled from the spec: the loop body of `LocatorParts` (see there), which records one
token: split on the first `/`, the key is assigned the value. -/
def locatorPartsStep (parts : StringMap) (tag : String) : StringMap :=
  match stringsCut tag '/' with
  | some (k, v) => parts.set k v
  | none => parts

/-- Modelled from the spec: `LocatorParts` is declared in a file of the package that is not
at hand.  The spec's token decoder "splits on spaces, then each token on the first `/`;
last-write-wins if a key repeats"; a token containing no `/` is ignored. -/
def LocatorParts (locator : String) : StringMap :=
  (stringsSplit locator ' ').foldl locatorPartsStep StringMap.empty

/-- Modelled from the spec: `NamespaceFrom` is declared in a file of the package that is not
at hand.  The namespace of a locator is the value of its `ns/<namespace>` token. -/
def NamespaceFrom (parts : StringMap) : String :=
  parts.index "ns"

/-- Modelled from the spec: `NamespaceFromLocator` is declared in a file of the package that
is not at hand.  It is the decoded namespace of the locator. -/
def NamespaceFromLocator (locator : String) : String :=
  NamespaceFrom (LocatorParts locator)

/-- The struct embedded in `PodReference`, with the fields `PodFrom` fills in. -/
structure NamespacedReference where
  Namespace : String
  Name : String
  UID : String
  deriving DecidableEq, Repr

/-- Go `type PodReference struct { NamespacedReference }`. -/
structure PodReference extends NamespacedReference
  deriving DecidableEq, Repr

/-- Go `type ContainerReference struct`. -/
structure ContainerReference where
  Pod : PodReference
  ContainerName : String
  deriving DecidableEq, Repr

/-- The zero value `PodReference{}`. -/
def PodReference.zero : PodReference :=
  { Namespace := "", Name := "", UID := "" }

/-- The zero value `ContainerReference{}`. -/
def ContainerReference.zero : ContainerReference :=
  { Pod := PodReference.zero, ContainerName := "" }

/-- Go `func PodFrom`. -/
def PodFrom (locator : String) : PodReference :=
  let parts := LocatorParts locator
  let namespace_ := NamespaceFrom parts
  let name := parts.index "pod"
  let uid := parts.index "uid"
  if namespace_.length == 0 || name.length == 0 || uid.length == 0 then
    PodReference.zero
  else
    { Namespace := namespace_, Name := name, UID := uid }

/-- Go `func ContainerFrom`. -/
def ContainerFrom (locator : String) : ContainerReference :=
  let pod := PodFrom locator
  let parts := LocatorParts locator
  let name := parts.index "container"
  if name.length == 0 || pod.UID.length == 0 then
    ContainerReference.zero
  else
    { Pod := pod, ContainerName := name }

/-- Go `func (r PodReference) ToLocator`. -/
def PodReference.ToLocator (r : PodReference) : String :=
  "ns/" ++ r.Namespace ++ " pod/" ++ r.Name ++ " uid/" ++ r.UID

/-- Go `func (r ContainerReference) ToLocator`. -/
def ContainerReference.ToLocator (r : ContainerReference) : String :=
  "ns/" ++ r.Pod.Namespace ++ " pod/" ++ r.Pod.Name ++ " uid/" ++ r.Pod.UID
    ++ " container/" ++ r.ContainerName

/-! ## Timeline ordering -/

/-- Go `time.Duration`: a signed 64-bit count of nanoseconds. -/
abbrev Duration := Int

/-- The smallest `time.Duration`. -/
def minDuration : Duration := -(2 ^ 63)

/-- The largest `time.Duration`. -/
def maxDuration : Duration := 2 ^ 63 - 1

/-- Go `time.Time`, as the instant it denotes, in nanoseconds. -/
structure Time where
  nanos : Int
  deriving DecidableEq, Repr

/-- Go `func (t Time) Sub(u Time) Duration`: the difference `t - u`, clamped to the range of
`Duration`. -/
def Time.Sub (t u : Time) : Duration :=
  let d := t.nanos - u.nanos
  if d < minDuration then minDuration
  else if d > maxDuration then maxDuration
  else d

/-- Modelled from the spec: the struct `EventInterval` is declared in a file of the package
that is not at hand.  The spec gives `{Locator string, Message string, From time.Instant,
To time.Instant}`. -/
structure EventInterval where
  Locator : String
  Message : String
  From : Time
  To : Time
  deriving DecidableEq, Repr

/-- Go `type ByTimeWithNamespacedPods []EventInterval`. -/
abbrev ByTimeWithNamespacedPods := List EventInterval

/-- The condition computed twice at the head of `Less`: the message contains `constructed`
and the locator contains `pod/`. -/
def isPodConstructed (e : EventInterval) : Bool :=
  stringsContains e.Message "constructed" && stringsContains e.Locator "pod/"

/-- The two `switch` statements on `From` and `To` and the final comparison of messages, which
`Less` reaches when its first `switch` returns nothing. -/
def lessByTime (lhs rhs : EventInterval) : Bool :=
  let d := lhs.From.Sub rhs.From
  if d < 0 then true
  else if d > 0 then false
  else
    let d := lhs.To.Sub rhs.To
    if d < 0 then true
    else if d > 0 then false
    else stringLt lhs.Message rhs.Message

/-- The body of `Less` on the two elements `intervals[i]` and `intervals[j]`. -/
def lessIntervals (lhs rhs : EventInterval) : Bool :=
  let lhsIsPodConstructed := isPodConstructed lhs
  let rhsIsPodConstructed := isPodConstructed rhs
  if lhsIsPodConstructed && rhsIsPodConstructed then
    let lhsNamespace := NamespaceFromLocator lhs.Locator
    let rhsNamespace := NamespaceFromLocator rhs.Locator
    if stringLt lhsNamespace rhsNamespace then true
    else if stringLt rhsNamespace lhsNamespace then false
    else lessByTime lhs rhs
  else if lhsIsPodConstructed && !rhsIsPodConstructed then true
  else if !lhsIsPodConstructed && rhsIsPodConstructed then false
  else if !lhsIsPodConstructed && !rhsIsPodConstructed then lessByTime lhs rhs
  else lessByTime lhs rhs

/-- The slice index expression `intervals[i]`: `none` when `i` is out of range, where Go
panics. -/
def ByTimeWithNamespacedPods.elemAt (intervals : ByTimeWithNamespacedPods) (i : Int) :
    Option EventInterval :=
  if i < 0 then none else intervals.get? i.toNat

/-- Go `func (intervals ByTimeWithNamespacedPods) Less(i, j int) bool`; `none` is the run-time
panic of an index out of range. -/
def ByTimeWithNamespacedPods.Less (intervals : ByTimeWithNamespacedPods) (i j : Int) :
    Option Bool :=
  match intervals.elemAt i, intervals.elemAt j with
  | some lhs, some rhs => some (lessIntervals lhs rhs)
  | _, _ => none

/-! ## Annotated messages -/

/-- The body of the `for` loop of `AnnotationsFromMessage` on the token `curr`: a token
without `/` is skipped, any other token is split on `/` and its piece 0 is assigned its
piece 1.  `none` is the run-time panic of an index out of range. -/
def annotationsLoopBody (annotations : StringMap) (curr : String) : Option StringMap :=
  if !stringsContains curr "/" then
    some annotations
  else
    let annotationTokens := stringsSplit curr '/'
    match annotationTokens.get? 0, annotationTokens.get? 1 with
    | some key, some value => some (annotations.set key value)
    | _, _ => none

/-- Go `func AnnotationsFromMessage`; `none` is a run-time panic. -/
def AnnotationsFromMessage (message : String) : Option StringMap :=
  let tokens := stringsSplit message ' '
  tokens.foldlM annotationsLoopBody StringMap.empty

/-- Go `func ReasonFrom`; `none` is a run-time panic. -/
def ReasonFrom (message : String) : Option String :=
  match AnnotationsFromMessage message with
  | some annotations => some (annotations.index "reason")
  | none => none

/-- Go `func PhaseFrom`; `none` is a run-time panic. -/
def PhaseFrom (message : String) : Option String :=
  match AnnotationsFromMessage message with
  | some annotations => some (annotations.index "phase")
  | none => none

/-- Go `strings.Join(elems, sep)`. -/
def stringsJoin : List String → String → String
  | [], _ => ""
  | [a], _ => a
  | a :: b :: rest, sep => a ++ sep ++ stringsJoin (b :: rest) sep

/-- Go `func ReasonedMessage(reason string, message ...string) string`, the variadic
parameter as the list of its arguments; `%v` and `%s` print a string as it is. -/
def ReasonedMessage (reason : String) (message : List String) : String :=
  "reason/" ++ reason ++ " " ++ stringsJoin message "; "

/-! ## Locators of pods -/

/-- The field of `corev1.PodSpec` that the locators read. -/
structure PodSpec where
  NodeName : String
  deriving DecidableEq, Repr

/-- The fields of `corev1.Pod` that the locators read; `UID` is of a string type. -/
structure Pod where
  Namespace : String
  Name : String
  UID : String
  Spec : PodSpec
  deriving DecidableEq, Repr

/-- Go `func LocatePod(pod *corev1.Pod) string`; the pointer is `none` when nil, and the
result is `none` when the function panics. -/
def LocatePod (pod : Option Pod) : Option String :=
  match pod with
  | some pod =>
    some ("ns/" ++ pod.Namespace ++ " pod/" ++ pod.Name ++ " node/" ++ pod.Spec.NodeName
      ++ " uid/" ++ pod.UID)
  | none => none

/-- Go `func LocatePodContainer(pod *corev1.Pod, containerName string) string`. -/
def LocatePodContainer (pod : Option Pod) (containerName : String) : Option String :=
  match pod with
  | some pod =>
    some ("ns/" ++ pod.Namespace ++ " pod/" ++ pod.Name ++ " node/" ++ pod.Spec.NodeName
      ++ " uid/" ++ pod.UID ++ " container/" ++ containerName)
  | none => none

/-- Go `func NonUniquePodLocatorFrom`. -/
def NonUniquePodLocatorFrom (locator : String) : String :=
  let parts := LocatorParts locator
  let namespace_ := NamespaceFrom parts
  "ns/" ++ namespace_ ++ " pod/" ++ parts.index "pod"

/-! ## Reasons -/

/-- Go `const PodIPReused`. -/
def PodIPReused : String := "ReusedPodIP"

/-- Go `const PodReasonCreated`. -/
def PodReasonCreated : String := "Created"

/-- Go `const PodReasonGracefulDeleteStarted`. -/
def PodReasonGracefulDeleteStarted : String := "GracefulDelete"

/-- Go `const PodReasonDeleted`. -/
def PodReasonDeleted : String := "Deleted"

/-- Go `const PodReasonScheduled`. -/
def PodReasonScheduled : String := "Scheduled"

/-- Go `const ContainerReasonContainerExit`. -/
def ContainerReasonContainerExit : String := "ContainerExit"

/-- Go `const ContainerReasonContainerStart`. -/
def ContainerReasonContainerStart : String := "ContainerStart"

/-- Go `const ContainerReasonContainerWait`. -/
def ContainerReasonContainerWait : String := "ContainerWait"

/-- Go `const ContainerReasonReadinessFailed`. -/
def ContainerReasonReadinessFailed : String := "ReadinessFailed"

/-- Go `const ContainerReasonReadinessErrored`. -/
def ContainerReasonReadinessErrored : String := "ReadinessErrored"

/-- Go `const ContainerReasonStartupProbeFailed`. -/
def ContainerReasonStartupProbeFailed : String := "StartupProbeFailed"

/-- Go `const ContainerReasonReady`. -/
def ContainerReasonReady : String := "Ready"

/-- Go `const ContainerReasonNotReady`. -/
def ContainerReasonNotReady : String := "NotReady"

/-- Go `const PodReasonDeletedBeforeScheduling`. -/
def PodReasonDeletedBeforeScheduling : String := "DeletedBeforeScheduling"

/-- Go `const PodReasonDeletedAfterCompletion`. -/
def PodReasonDeletedAfterCompletion : String := "DeletedAfterCompletion"

/-- A `sets.String`, as the list of the strings put in it; `s ∈ set` is `set.Has(s)`. -/
abbrev StringSet := List String

/-- Go `sets.NewString(items...)`. -/
def NewString (items : List String) : StringSet := items

/-- Go `var PodLifecycleTransitionReasons`. -/
def PodLifecycleTransitionReasons : StringSet :=
  NewString [PodReasonCreated, PodReasonScheduled, PodReasonGracefulDeleteStarted,
    PodReasonDeleted]

/-- Go `var ContainerLifecycleTransitionReasons`. -/
def ContainerLifecycleTransitionReasons : StringSet :=
  NewString [ContainerReasonContainerWait, ContainerReasonContainerStart,
    ContainerReasonContainerExit]

/-- Go `var ContainerReadinessTransitionReasons`. -/
def ContainerReadinessTransitionReasons : StringSet :=
  NewString [ContainerReasonReady, ContainerReasonNotReady]

/-- Go `var KubeletReadinessCheckReasons`. -/
def KubeletReadinessCheckReasons : StringSet :=
  NewString [ContainerReasonReadinessFailed, ContainerReasonReadinessErrored,
    ContainerReasonStartupProbeFailed]

/-! ## Notions used in the statements -/

/-- The text of `s` up to its first `/`: all of `s` when it has none. -/
def beforeSlash (s : String) : String :=
  match stringsCut s '/' with
  | some (v, _) => v
  | none => s

/-- The key and value that the loop of `AnnotationsFromMessage` takes from a token: for a
token with a `/`, the text before its first `/` and the text between its first `/` and the
next one (up to the end of the token when there is no other `/`); nothing for a token
without `/`. -/
def annotationOf (curr : String) : Option (String × String) :=
  match stringsCut curr '/' with
  | some (key, remainder) => some (key, beforeSlash remainder)
  | none => none

/-- The map after the token `curr` has been read, in terms of `annotationOf`. -/
def annotate (annotations : StringMap) (curr : String) : StringMap :=
  match annotationOf curr with
  | some (key, value) => annotations.set key value
  | none => annotations

/-- The values that the tokens with the key `key` give it, in the order of the tokens. -/
def valuesOf (key : String) (tokens : List String) : List String :=
  tokens.filterMap fun t =>
    match annotationOf t with
    | some (k, v) => if k = key then some v else none
    | none => none

/-- A slice is sorted with respect to `Less` when no later element is `Less` than an earlier
one. -/
def SortedByLess (intervals : ByTimeWithNamespacedPods) : Prop :=
  ∀ j : Nat, j < intervals.length → ∀ i : Nat, i < j →
    intervals.Less (j : Int) (i : Int) = some false

/-- Two intervals are told apart by the comparison: they differ in message, in `From`, in
`To`, in being pod-constructed, or both are pod-constructed with different namespaces. -/
def orderedApart (a b : EventInterval) : Prop :=
  a.Message ≠ b.Message ∨ a.From ≠ b.From ∨ a.To ≠ b.To
    ∨ isPodConstructed a ≠ isPodConstructed b
    ∨ (isPodConstructed a = true ∧ isPodConstructed b = true
      ∧ NamespaceFromLocator a.Locator ≠ NamespaceFromLocator b.Locator)

instance SortedByLess.decidable (intervals : ByTimeWithNamespacedPods) :
    Decidable (SortedByLess intervals) := by
  unfold SortedByLess
  infer_instance

instance orderedApart.decidable (a b : EventInterval) : Decidable (orderedApart a b) := by
  unfold orderedApart
  infer_instance

/-- The type of the comparison keys of intervals, ordered lexicographically. -/
abbrev SortKey := ℕ ×ₗ (String ×ₗ (ℤ ×ₗ (ℤ ×ₗ String)))

/-- The comparison key of an interval: `(0, namespace, From, To, Message)` when it is
pod-constructed and `(1, "", From, To, Message)` otherwise. -/
def sortKey (x : EventInterval) : SortKey :=
  if isPodConstructed x then
    toLex (0, toLex (NamespaceFromLocator x.Locator,
      toLex (x.From.nanos, toLex (x.To.nanos, x.Message))))
  else
    toLex (1, toLex ("", toLex (x.From.nanos, toLex (x.To.nanos, x.Message))))

/-! ## Sample values -/

/-- A pod reference whose namespace contains a space. -/
def podWithSpace : PodReference :=
  { Namespace := "a b", Name := "n", UID := "u" }

/-- A container reference whose container name contains a space. -/
def containerWithSpace : ContainerReference :=
  { Pod := { Namespace := "a", Name := "n", UID := "u" }, ContainerName := "c d" }

/-- A pod-constructed interval in namespace `b` and, before it in the slice, an interval of
namespace `a` that is not constructed and starts earlier. -/
def constructedAfterReady : ByTimeWithNamespacedPods :=
  [ { Locator := "ns/a pod/p1 uid/u1", Message := "reason/Ready ready",
      From := ⟨100⟩, To := ⟨200⟩ },
    { Locator := "ns/b pod/p2 uid/u2", Message := "constructed/true pod was created",
      From := ⟨500⟩, To := ⟨500⟩ } ]

/-- The start of the scenario: `A` (namespace `b`, constructed, from 30), `B` (namespace
`a`, constructed, from 20), `C` (namespace `a`, message `ready`, from 10). -/
def scenarioInput : ByTimeWithNamespacedPods :=
  [ { Locator := "ns/b pod/p2", Message := "constructed/true", From := ⟨30⟩, To := ⟨30⟩ },
    { Locator := "ns/a pod/p1", Message := "constructed/true", From := ⟨20⟩, To := ⟨20⟩ },
    { Locator := "ns/a pod/p1", Message := "ready", From := ⟨10⟩, To := ⟨10⟩ } ]

/-- The scenario in the order `B`, `A`, `C`. -/
def scenarioSorted : ByTimeWithNamespacedPods :=
  [ { Locator := "ns/a pod/p1", Message := "constructed/true", From := ⟨20⟩, To := ⟨20⟩ },
    { Locator := "ns/b pod/p2", Message := "constructed/true", From := ⟨30⟩, To := ⟨30⟩ },
    { Locator := "ns/a pod/p1", Message := "ready", From := ⟨10⟩, To := ⟨10⟩ } ]

/-- Three intervals with the same times and message that are not constructed, on three
different locators. -/
def onlyLocatorsDiffer : ByTimeWithNamespacedPods :=
  [ { Locator := "ns/a pod/x", Message := "ready", From := ⟨1⟩, To := ⟨2⟩ },
    { Locator := "ns/b pod/y", Message := "ready", From := ⟨1⟩, To := ⟨2⟩ },
    { Locator := "ns/c pod/z", Message := "ready", From := ⟨1⟩, To := ⟨2⟩ } ]

/-- Two intervals with the same times: the first, with message `a`, is not constructed, the
second, with message `constructed`, is pod-constructed. -/
def constructedTie : ByTimeWithNamespacedPods :=
  [ { Locator := "ns/a pod/p", Message := "a", From := ⟨1⟩, To := ⟨2⟩ },
    { Locator := "ns/a pod/p", Message := "constructed", From := ⟨1⟩, To := ⟨2⟩ } ]

/-- Two intervals of one pod that are not constructed, with the same start. -/
def sameStart : ByTimeWithNamespacedPods :=
  [ { Locator := "ns/a pod/p", Message := "reason/Ready", From := ⟨5⟩, To := ⟨7⟩ },
    { Locator := "ns/a pod/p", Message := "reason/NotReady", From := ⟨5⟩, To := ⟨9⟩ } ]

/-- The pod `etcd-0` of namespace `openshift-etcd`, scheduled on node `master-0`. -/
def etcdPod : Pod :=
  { Namespace := "openshift-etcd", Name := "etcd-0", UID := "5f2c",
    Spec := { NodeName := "master-0" } }

end Monitorapi

namespace Allowedalerts

open Monitorapi (Duration)

/-- Go `time.Hour`, in nanoseconds. -/
def Hour : Duration := 60 * (60 * 1000000000)

/-- Go `error`: `none` is `nil`, `some msg` an error value. -/
abbrev GoError := Option String

/-- Modelled from the spec: `historicaldata.StatisticalDuration` is declared in a package
that is not at hand.  It is "a record carrying at least `P95` and `P99` duration
percentiles". -/
structure StatisticalDuration where
  P95 : Duration
  P99 : Duration
  deriving DecidableEq, Repr

/-- The zero value `StatisticalDuration{}`. -/
def StatisticalDuration.zero : StatisticalDuration := { P95 := 0, P99 := 0 }

/-- The method set of the interface `AlertTestAllowanceCalculator`, over a key type standing
for `historicaldata.AlertDataKey`.  A method returns `none` when the call panics. -/
structure AllowanceMethods (Key : Type) where
  FailAfter : Key → Option (Duration × GoError)
  FlakeAfter : Key → Option Duration

/-- A value of the interface type `AlertTestAllowanceCalculator`: `none` is the nil
interface. -/
abbrev AlertTestAllowanceCalculator (Key : Type) := Option (AllowanceMethods Key)

/-- The call `c.FailAfter(key)` on an interface value; calling a nil interface panics. -/
def AlertTestAllowanceCalculator.callFailAfter {Key : Type}
    (c : AlertTestAllowanceCalculator Key) (key : Key) : Option (Duration × GoError) :=
  match c with
  | some m => m.FailAfter key
  | none => none

/-- The call `c.FlakeAfter(key)` on an interface value; calling a nil interface panics. -/
def AlertTestAllowanceCalculator.callFlakeAfter {Key : Type}
    (c : AlertTestAllowanceCalculator Key) (key : Key) : Option Duration :=
  match c with
  | some m => m.FlakeAfter key
  | none => none

/-- Go `type neverFailAllowance struct`. -/
structure neverFailAllowance (Key : Type) where
  flakeDelegate : AlertTestAllowanceCalculator Key

/-- Go `func (d *neverFailAllowance) FailAfter`. -/
def neverFailAllowance.FailAfter {Key : Type} (_d : neverFailAllowance Key) (_key : Key) :
    Duration × GoError :=
  (24 * Hour, none)

/-- Go `func (d *neverFailAllowance) FlakeAfter`. -/
def neverFailAllowance.FlakeAfter {Key : Type} (d : neverFailAllowance Key) (key : Key) :
    Option Duration :=
  d.flakeDelegate.callFlakeAfter key

/-- Go `func neverFail`: the interface value holding `&neverFailAllowance{flakeDelegate}`. -/
def neverFail {Key : Type} (flakeDelegate : AlertTestAllowanceCalculator Key) :
    AlertTestAllowanceCalculator Key :=
  let d : neverFailAllowance Key := { flakeDelegate := flakeDelegate }
  some { FailAfter := fun key => some (d.FailAfter key), FlakeAfter := fun key => d.FlakeAfter key }

/-- The result type of `getClosestPercentilesValues`:
`(historicaldata.StatisticalDuration, string, error)`. -/
abbrev LookupResult := StatisticalDuration × String × GoError

/-- Go `func getClosestPercentilesValues`.  Its body `getCurrentResults().BestMatchDuration(key)`
calls the historical-data store, which is not at hand and is taken as the parameter
`BestMatchDuration`. -/
def getClosestPercentilesValues {Key : Type} (BestMatchDuration : Key → LookupResult)
    (key : Key) : LookupResult :=
  BestMatchDuration key

/-- Go `func (d *percentileAllowances) FailAfter`. -/
def percentileAllowances.FailAfter {Key : Type} (BestMatchDuration : Key → LookupResult)
    (key : Key) : Duration × GoError :=
  match getClosestPercentilesValues BestMatchDuration key with
  | (allowed, _, _) => (allowed.P99, none)

/-- Go `func (d *percentileAllowances) FlakeAfter`. -/
def percentileAllowances.FlakeAfter {Key : Type} (BestMatchDuration : Key → LookupResult)
    (key : Key) : Duration :=
  match getClosestPercentilesValues BestMatchDuration key with
  | (allowed, _, _) => allowed.P95

/-- The interface value `defaultAllowances = &percentileAllowances{}`. -/
def defaultAllowances {Key : Type} (BestMatchDuration : Key → LookupResult) :
    AlertTestAllowanceCalculator Key :=
  some
    { FailAfter := fun key => some (percentileAllowances.FailAfter BestMatchDuration key),
      FlakeAfter := fun key => some (percentileAllowances.FlakeAfter BestMatchDuration key) }

/-- A statistics store that answers every key with the zero record and an error. -/
def erroringStore : String → LookupResult :=
  fun _ => (StatisticalDuration.zero, "", some "no historical data")

end Allowedalerts

namespace Monitorapi

/-! ## Facts about splitting -/

theorem splitChars_of_not_mem (sep : Char) (t : List Char) (h : sep ∉ t) :
    splitChars sep t = [t] := by
  induction t with
  | nil => rfl
  | cons c cs ih =>
    have hc : c ≠ sep := fun e => h (by simp [e])
    have hcs : sep ∉ cs := fun m => h (List.mem_cons_of_mem _ m)
    simp [splitChars, hc, ih hcs]

theorem splitChars_ne_nil (sep : Char) (l : List Char) : splitChars sep l ≠ [] := by
  induction l with
  | nil => simp [splitChars]
  | cons c cs ih =>
    unfold splitChars
    split
    · simp
    · split <;> simp

theorem splitChars_append_sep (sep : Char) (t rest : List Char) (h : sep ∉ t) :
    splitChars sep (t ++ sep :: rest) = t :: splitChars sep rest := by
  induction t with
  | nil => simp [splitChars]
  | cons c cs ih =>
    have hc : c ≠ sep := fun e => h (by simp [e])
    have hcs : sep ∉ cs := fun m => h (List.mem_cons_of_mem _ m)
    simp [splitChars, hc, ih hcs]

theorem cutChars_append_sep (sep : Char) (k v : List Char) (h : sep ∉ k) :
    cutChars sep (k ++ sep :: v) = some (k, v) := by
  induction k with
  | nil => simp [cutChars]
  | cons c cs ih =>
    have hc : c ≠ sep := fun e => h (by simp [e])
    have hcs : sep ∉ cs := fun m => h (List.mem_cons_of_mem _ m)
    simp [cutChars, hc, ih hcs]

theorem length_eq_zero_iff (s : String) : s.length = 0 ↔ s = "" := by
  cases s with
  | mk l => cases l <;> simp [String.length, String.ext_iff]

/-! ## Decoding an encoded reference -/

theorem stringsSplit_of_no_space (t : String) (h : ' ' ∉ t.data) :
    stringsSplit t ' ' = [t] := by
  simp [stringsSplit, splitChars_of_not_mem _ _ h]

theorem stringsSplit_token_space (t rest : String) (h : ' ' ∉ t.data) :
    stringsSplit (t ++ " " ++ rest) ' ' = t :: stringsSplit rest ' ' := by
  have hd : (t ++ " " ++ rest).data = t.data ++ ' ' :: rest.data := by
    simp [String.data_append]
  simp [stringsSplit, hd, splitChars_append_sep _ _ _ h]

theorem stringsCut_key_value (k v : String) (h : '/' ∉ k.data) :
    stringsCut (k ++ "/" ++ v) '/' = some (k, v) := by
  have hd : (k ++ "/" ++ v).data = k.data ++ '/' :: v.data := by
    simp [String.data_append]
  simp [stringsCut, hd, cutChars_append_sep _ _ _ h]

theorem locatorPartsStep_key_value (parts : StringMap) (k v : String) (h : '/' ∉ k.data) :
    locatorPartsStep parts (k ++ "/" ++ v) = parts.set k v := by
  simp [locatorPartsStep, stringsCut_key_value k v h]

theorem not_mem_key_value (c : Char) (k v : String) (hk : c ∉ k.data) (hc : c ≠ '/')
    (hv : c ∉ v.data) : c ∉ (k ++ "/" ++ v).data := by
  simp [String.data_append, hk, hv, hc]

/-- The tokens of an encoded pod reference decode to its three fields. -/
theorem LocatorParts_pod_encoding (ns name uid : String) (hns : ' ' ∉ ns.data)
    (hname : ' ' ∉ name.data) (huid : ' ' ∉ uid.data) :
    LocatorParts ("ns/" ++ ns ++ " pod/" ++ name ++ " uid/" ++ uid)
      = ((StringMap.empty.set "ns" ns).set "pod" name).set "uid" uid := by
  have e : "ns/" ++ ns ++ " pod/" ++ name ++ " uid/" ++ uid
      = ("ns" ++ "/" ++ ns) ++ " " ++ (("pod" ++ "/" ++ name) ++ " " ++ ("uid" ++ "/" ++ uid)) := by
    apply String.ext; simp [String.data_append]
  rw [e, LocatorParts,
    stringsSplit_token_space _ _ (not_mem_key_value _ _ _ (by decide) (by decide) hns),
    stringsSplit_token_space _ _ (not_mem_key_value _ _ _ (by decide) (by decide) hname),
    stringsSplit_of_no_space _ (not_mem_key_value _ _ _ (by decide) (by decide) huid)]
  simp only [List.foldl_cons, List.foldl_nil]
  rw [locatorPartsStep_key_value _ _ _ (by decide), locatorPartsStep_key_value _ _ _ (by decide),
    locatorPartsStep_key_value _ _ _ (by decide)]

/-- The tokens of an encoded container reference decode to its four fields. -/
theorem LocatorParts_container_encoding (ns name uid c : String) (hns : ' ' ∉ ns.data)
    (hname : ' ' ∉ name.data) (huid : ' ' ∉ uid.data) (hc : ' ' ∉ c.data) :
    LocatorParts ("ns/" ++ ns ++ " pod/" ++ name ++ " uid/" ++ uid ++ " container/" ++ c)
      = (((StringMap.empty.set "ns" ns).set "pod" name).set "uid" uid).set "container" c := by
  have e : "ns/" ++ ns ++ " pod/" ++ name ++ " uid/" ++ uid ++ " container/" ++ c
      = ("ns" ++ "/" ++ ns) ++ " " ++ (("pod" ++ "/" ++ name) ++ " "
          ++ (("uid" ++ "/" ++ uid) ++ " " ++ ("container" ++ "/" ++ c))) := by
    apply String.ext; simp [String.data_append]
  rw [e, LocatorParts,
    stringsSplit_token_space _ _ (not_mem_key_value _ _ _ (by decide) (by decide) hns),
    stringsSplit_token_space _ _ (not_mem_key_value _ _ _ (by decide) (by decide) hname),
    stringsSplit_token_space _ _ (not_mem_key_value _ _ _ (by decide) (by decide) huid),
    stringsSplit_of_no_space _ (not_mem_key_value _ _ _ (by decide) (by decide) hc)]
  simp only [List.foldl_cons, List.foldl_nil]
  rw [locatorPartsStep_key_value _ _ _ (by decide), locatorPartsStep_key_value _ _ _ (by decide),
    locatorPartsStep_key_value _ _ _ (by decide), locatorPartsStep_key_value _ _ _ (by decide)]

/-- Decoding the encoding of a pod reference with non-empty, space-free fields. -/
theorem PodFrom_ToLocator_of_spaceFree (r : PodReference)
    (hns : r.Namespace ≠ "") (hname : r.Name ≠ "") (huid : r.UID ≠ "")
    (sns : ' ' ∉ r.Namespace.data) (sname : ' ' ∉ r.Name.data) (suid : ' ' ∉ r.UID.data) :
    PodFrom r.ToLocator = r := by
  have h1 : r.Namespace.length ≠ 0 := fun h => hns ((length_eq_zero_iff _).1 h)
  have h2 : r.Name.length ≠ 0 := fun h => hname ((length_eq_zero_iff _).1 h)
  have h3 : r.UID.length ≠ 0 := fun h => huid ((length_eq_zero_iff _).1 h)
  have i1 : ((StringMap.empty.set "ns" r.Namespace).set "pod" r.Name).set "uid" r.UID "ns"
      = some r.Namespace := by simp [StringMap.set]
  have i2 : ((StringMap.empty.set "ns" r.Namespace).set "pod" r.Name).set "uid" r.UID "pod"
      = some r.Name := by simp [StringMap.set]
  have i3 : ((StringMap.empty.set "ns" r.Namespace).set "pod" r.Name).set "uid" r.UID "uid"
      = some r.UID := by simp [StringMap.set]
  simp [PodFrom, PodReference.ToLocator, LocatorParts_pod_encoding _ _ _ sns sname suid,
    NamespaceFrom, StringMap.index, i1, i2, i3, h1, h2, h3]

/-- Decoding the encoding of a container reference with non-empty, space-free fields. -/
theorem ContainerFrom_ToLocator_of_spaceFree (c : ContainerReference)
    (hns : c.Pod.Namespace ≠ "") (hname : c.Pod.Name ≠ "") (huid : c.Pod.UID ≠ "")
    (hcn : c.ContainerName ≠ "")
    (sns : ' ' ∉ c.Pod.Namespace.data) (sname : ' ' ∉ c.Pod.Name.data)
    (suid : ' ' ∉ c.Pod.UID.data) (scn : ' ' ∉ c.ContainerName.data) :
    ContainerFrom c.ToLocator = c := by
  have h1 : c.Pod.Namespace.length ≠ 0 := fun h => hns ((length_eq_zero_iff _).1 h)
  have h2 : c.Pod.Name.length ≠ 0 := fun h => hname ((length_eq_zero_iff _).1 h)
  have h3 : c.Pod.UID.length ≠ 0 := fun h => huid ((length_eq_zero_iff _).1 h)
  have h4 : c.ContainerName.length ≠ 0 := fun h => hcn ((length_eq_zero_iff _).1 h)
  have i1 : (((StringMap.empty.set "ns" c.Pod.Namespace).set "pod" c.Pod.Name).set "uid"
      c.Pod.UID).set "container" c.ContainerName "ns" = some c.Pod.Namespace := by
    simp [StringMap.set]
  have i2 : (((StringMap.empty.set "ns" c.Pod.Namespace).set "pod" c.Pod.Name).set "uid"
      c.Pod.UID).set "container" c.ContainerName "pod" = some c.Pod.Name := by
    simp [StringMap.set]
  have i3 : (((StringMap.empty.set "ns" c.Pod.Namespace).set "pod" c.Pod.Name).set "uid"
      c.Pod.UID).set "container" c.ContainerName "uid" = some c.Pod.UID := by
    simp [StringMap.set]
  have i4 : (((StringMap.empty.set "ns" c.Pod.Namespace).set "pod" c.Pod.Name).set "uid"
      c.Pod.UID).set "container" c.ContainerName "container" = some c.ContainerName := by
    simp [StringMap.set]
  simp [ContainerFrom, PodFrom, ContainerReference.ToLocator,
    LocatorParts_container_encoding _ _ _ _ sns sname suid scn,
    NamespaceFrom, StringMap.index, i1, i2, i3, i4, h1, h2, h3, h4]

/-- The value read from a map is empty exactly when the key is missing or stored empty. -/
theorem StringMap.index_eq_empty_iff (m : StringMap) (k : String) :
    m.index k = "" ↔ m k = none ∨ m k = some "" := by
  unfold StringMap.index
  cases m k <;> simp

/-- Value of `PodFrom` in terms of the three decoded values. -/
theorem PodFrom_eq (l : String) :
    PodFrom l =
      if NamespaceFrom (LocatorParts l) = "" ∨ (LocatorParts l).index "pod" = ""
          ∨ (LocatorParts l).index "uid" = "" then PodReference.zero
      else { Namespace := NamespaceFrom (LocatorParts l), Name := (LocatorParts l).index "pod",
             UID := (LocatorParts l).index "uid" } := by
  simp [PodFrom, length_eq_zero_iff, or_assoc]

/-- Value of `ContainerFrom` in terms of `PodFrom` and the decoded container name. -/
theorem ContainerFrom_eq (l : String) :
    ContainerFrom l =
      if (LocatorParts l).index "container" = "" ∨ (PodFrom l).UID = "" then
        ContainerReference.zero
      else { Pod := PodFrom l, ContainerName := (LocatorParts l).index "container" } := by
  simp [ContainerFrom, length_eq_zero_iff]

/-- A pod reference returned by `PodFrom` with a non-empty UID has all fields non-empty. -/
theorem PodFrom_fields_of_UID (l : String) (h : (PodFrom l).UID ≠ "") :
    (PodFrom l).Namespace ≠ "" ∧ (PodFrom l).Name ≠ "" := by
  rw [PodFrom_eq] at h ⊢
  split
  · rename_i hz
    rw [if_pos hz] at h
    exact absurd rfl h
  · rename_i hz
    simp only [not_or] at hz
    exact ⟨hz.1, hz.2.1⟩

end Monitorapi

/-! ## The locator codec: round trips and absence -/

namespace Monitorapi

/-- C1, as stated, fails: `podWithSpace` has non-empty namespace, name and UID, its locator
is `ns/a b pod/n uid/u`, and decoding that locator gives the namespace `a`, not `a b`. -/
theorem PodFrom_ToLocator_space_counterexample :
    podWithSpace.Namespace ≠ "" ∧ podWithSpace.Name ≠ "" ∧ podWithSpace.UID ≠ ""
      ∧ podWithSpace.ToLocator = "ns/a b pod/n uid/u"
      ∧ PodFrom podWithSpace.ToLocator = { Namespace := "a", Name := "n", UID := "u" }
      ∧ PodFrom podWithSpace.ToLocator ≠ podWithSpace := by
  decide

/-- C1, amended: for every `PodReference` whose namespace, name and UID are non-empty and
contain no space, decoding its encoding gives it back, `PodFrom(r.ToLocator()) == r`. -/
theorem PodFrom_ToLocator_roundtrip (r : PodReference)
    (hns : r.Namespace ≠ "") (hname : r.Name ≠ "") (huid : r.UID ≠ "")
    (sns : ' ' ∉ r.Namespace.data) (sname : ' ' ∉ r.Name.data) (suid : ' ' ∉ r.UID.data) :
    PodFrom r.ToLocator = r :=
  PodFrom_ToLocator_of_spaceFree r hns hname huid sns sname suid

/-- The amended round trip of C1 at the pod `etcd-0` of namespace `openshift-etcd`. -/
theorem PodFrom_ToLocator_roundtrip_witness :
    PodFrom (PodReference.ToLocator
        { Namespace := "openshift-etcd", Name := "etcd-0", UID := "5f2c" })
      = { Namespace := "openshift-etcd", Name := "etcd-0", UID := "5f2c" } :=
  PodFrom_ToLocator_roundtrip { Namespace := "openshift-etcd", Name := "etcd-0", UID := "5f2c" }
    (by decide) (by decide) (by decide) (by decide) (by decide) (by decide)

/-- C2, as stated, fails: `containerWithSpace` has all four fields non-empty, its locator is
`ns/a pod/n uid/u container/c d`, and decoding gives the container name `c`, not `c d`. -/
theorem ContainerFrom_ToLocator_space_counterexample :
    containerWithSpace.Pod.Namespace ≠ "" ∧ containerWithSpace.Pod.Name ≠ ""
      ∧ containerWithSpace.Pod.UID ≠ "" ∧ containerWithSpace.ContainerName ≠ ""
      ∧ containerWithSpace.ToLocator = "ns/a pod/n uid/u container/c d"
      ∧ (ContainerFrom containerWithSpace.ToLocator).ContainerName = "c"
      ∧ ContainerFrom containerWithSpace.ToLocator ≠ containerWithSpace := by
  decide

/-- C2, amended: for every `ContainerReference` whose pod namespace, name and UID and whose
container name are non-empty and contain no space, `ContainerFrom(c.ToLocator()) == c`. -/
theorem ContainerFrom_ToLocator_roundtrip (c : ContainerReference)
    (hns : c.Pod.Namespace ≠ "") (hname : c.Pod.Name ≠ "") (huid : c.Pod.UID ≠ "")
    (hcn : c.ContainerName ≠ "")
    (sns : ' ' ∉ c.Pod.Namespace.data) (sname : ' ' ∉ c.Pod.Name.data)
    (suid : ' ' ∉ c.Pod.UID.data) (scn : ' ' ∉ c.ContainerName.data) :
    ContainerFrom c.ToLocator = c :=
  ContainerFrom_ToLocator_of_spaceFree c hns hname huid hcn sns sname suid scn

/-- The amended round trip of C2 at the container `etcdctl` of the pod `etcd-0`. -/
theorem ContainerFrom_ToLocator_roundtrip_witness :
    ContainerFrom (ContainerReference.ToLocator
        { Pod := { Namespace := "openshift-etcd", Name := "etcd-0", UID := "5f2c" },
          ContainerName := "etcdctl" })
      = { Pod := { Namespace := "openshift-etcd", Name := "etcd-0", UID := "5f2c" },
          ContainerName := "etcdctl" } :=
  ContainerFrom_ToLocator_roundtrip
    { Pod := { Namespace := "openshift-etcd", Name := "etcd-0", UID := "5f2c" },
      ContainerName := "etcdctl" }
    (by decide) (by decide) (by decide) (by decide) (by decide) (by decide) (by decide)
    (by decide)

/-- C3: for every locator, `PodFrom` is the zero reference when the decoded namespace, `pod`
value or `uid` value is empty (the value read from the map is empty exactly when the key is
missing or stored empty), and otherwise the reference holding those three values; so it is
zero if and only if one of the three is empty.  `PodFrom("")` and `PodFrom("ns/x pod/y")` are
zero. -/
theorem PodFrom_zero_or_decoded (l : String) :
    (PodFrom l =
      if NamespaceFrom (LocatorParts l) = "" ∨ (LocatorParts l).index "pod" = ""
          ∨ (LocatorParts l).index "uid" = "" then PodReference.zero
      else { Namespace := NamespaceFrom (LocatorParts l), Name := (LocatorParts l).index "pod",
             UID := (LocatorParts l).index "uid" })
    ∧ (PodFrom l = PodReference.zero ↔
        (NamespaceFrom (LocatorParts l) = "" ∨ (LocatorParts l).index "pod" = ""
          ∨ (LocatorParts l).index "uid" = ""))
    ∧ (∀ k, (LocatorParts l).index k = "" ↔ (LocatorParts l k = none ∨ LocatorParts l k = some ""))
    ∧ PodFrom "" = PodReference.zero
    ∧ PodFrom "ns/x pod/y" = PodReference.zero := by
  refine ⟨PodFrom_eq l, ?_, fun k => StringMap.index_eq_empty_iff _ k, by decide, by decide⟩
  rw [PodFrom_eq]
  constructor
  · intro h
    by_contra hz
    rw [if_neg hz] at h
    simp only [not_or] at hz
    exact hz.1 (congrArg (fun p => p.Namespace) h)
  · intro hz
    rw [if_pos hz]

/-- C4: for every locator, `ContainerFrom` is the zero reference when the decoded `container`
value is empty or `PodFrom` of the locator has an empty UID, and otherwise is exactly
`{Pod: PodFrom(l), ContainerName: container value}`; a non-zero result has a non-empty
container name and a pod with non-empty namespace, name and UID. -/
theorem ContainerFrom_zero_or_decoded (l : String) :
    (ContainerFrom l =
      if (LocatorParts l).index "container" = "" ∨ (PodFrom l).UID = "" then
        ContainerReference.zero
      else { Pod := PodFrom l, ContainerName := (LocatorParts l).index "container" })
    ∧ (ContainerFrom l ≠ ContainerReference.zero →
        (ContainerFrom l).ContainerName ≠ "" ∧ (ContainerFrom l).Pod.Namespace ≠ ""
          ∧ (ContainerFrom l).Pod.Name ≠ "" ∧ (ContainerFrom l).Pod.UID ≠ "") := by
  refine ⟨ContainerFrom_eq l, ?_⟩
  rw [ContainerFrom_eq]
  intro h
  by_cases hz : (LocatorParts l).index "container" = "" ∨ (PodFrom l).UID = ""
  · rw [if_pos hz] at h
    exact absurd rfl h
  · rw [if_neg hz]
    simp only [not_or] at hz
    exact ⟨hz.1, (PodFrom_fields_of_UID l hz.2).1, (PodFrom_fields_of_UID l hz.2).2, hz.2⟩

/-- C4 at the locator `ns/n pod/p uid/u container/c`, which decodes to a non-zero reference. -/
theorem ContainerFrom_zero_or_decoded_witness :
    ContainerFrom "ns/n pod/p uid/u container/c" ≠ ContainerReference.zero
      ∧ (ContainerFrom "ns/n pod/p uid/u container/c").ContainerName ≠ ""
      ∧ (ContainerFrom "ns/n pod/p uid/u container/c").Pod.Namespace ≠ ""
      ∧ (ContainerFrom "ns/n pod/p uid/u container/c").Pod.Name ≠ ""
      ∧ (ContainerFrom "ns/n pod/p uid/u container/c").Pod.UID ≠ "" :=
  ⟨by decide, (ContainerFrom_zero_or_decoded "ns/n pod/p uid/u container/c").2 (by decide)⟩

end Monitorapi

/-! ## Alert allowances -/

namespace Allowedalerts

/-- C5, as stated, fails: for the key `KubePodNotReady` the lookup over `erroringStore` returns
a non-nil error, and `percentileAllowances.FailAfter` returns the nil error. -/
theorem percentileAllowances_FailAfter_error_counterexample :
    (getClosestPercentilesValues erroringStore "KubePodNotReady").2.2
        = some "no historical data"
      ∧ (percentileAllowances.FailAfter erroringStore "KubePodNotReady").2 = none
      ∧ (percentileAllowances.FailAfter erroringStore "KubePodNotReady").2
          ≠ (getClosestPercentilesValues erroringStore "KubePodNotReady").2.2 := by
  decide

/-- C5, amended: for every key, `percentileAllowances.FailAfter` returns the nil error,
whatever the lookup returns for the key, a non-nil error included: the error of the lookup
is discarded. -/
theorem percentileAllowances_FailAfter_error_nil {Key : Type}
    (BestMatchDuration : Key → LookupResult) (key : Key) :
    (percentileAllowances.FailAfter BestMatchDuration key).2 = none :=
  rfl

/-- C6: for every delegate (the nil interface and delegates whose methods panic or return an
error included) and every key, `neverFail(d).FailAfter(k)` returns 24 hours, which is
86,400,000,000,000 ns, and the nil error. -/
theorem neverFail_FailAfter {Key : Type} (d : AlertTestAllowanceCalculator Key) (k : Key) :
    (neverFail d).callFailAfter k = some (86400000000000, none) := by
  simp [neverFail, AlertTestAllowanceCalculator.callFailAfter, neverFailAllowance.FailAfter,
    Hour]

/-- C7: for every delegate and every key, `neverFail(d).FlakeAfter(k)` is the outcome of
`d.FlakeAfter(k)`: the same key is passed on and the result is returned unchanged. -/
theorem neverFail_FlakeAfter {Key : Type} (d : AlertTestAllowanceCalculator Key) (k : Key) :
    (neverFail d).callFlakeAfter k = d.callFlakeAfter k :=
  rfl

/-- C8: for every key, with `rec` the record the lookup yields for it,
`percentileAllowances.FailAfter` returns `rec.P99` as its duration and
`percentileAllowances.FlakeAfter` returns `rec.P95`. -/
theorem percentileAllowances_P99_P95 {Key : Type} (BestMatchDuration : Key → LookupResult)
    (key : Key) :
    (percentileAllowances.FailAfter BestMatchDuration key).1
        = (getClosestPercentilesValues BestMatchDuration key).1.P99
      ∧ percentileAllowances.FlakeAfter BestMatchDuration key
        = (getClosestPercentilesValues BestMatchDuration key).1.P95 :=
  ⟨rfl, rfl⟩

/-- C9: `percentileAllowances.FlakeAfter` never surfaces a lookup failure: whatever record,
description and error (nil or not) the lookup returns for a key, `FlakeAfter` returns the P95
of that record, which is the zero duration when the record is the zero value. -/
theorem percentileAllowances_FlakeAfter_ignores_error {Key : Type}
    (BestMatchDuration : Key → LookupResult) (key : Key)
    (record : StatisticalDuration) (desc : String) (err : GoError)
    (h : getClosestPercentilesValues BestMatchDuration key = (record, desc, err)) :
    percentileAllowances.FlakeAfter BestMatchDuration key = record.P95
      ∧ (record = StatisticalDuration.zero →
          percentileAllowances.FlakeAfter BestMatchDuration key = 0) := by
  have e : percentileAllowances.FlakeAfter BestMatchDuration key = record.P95 := by
    simp [percentileAllowances.FlakeAfter, h]
  refine ⟨e, fun hz => ?_⟩
  rw [e, hz]
  rfl

/-- C9 at a lookup that fails: over `erroringStore` the lookup returns the zero record with
an error, and `FlakeAfter` returns the zero duration. -/
theorem percentileAllowances_FlakeAfter_ignores_error_witness :
    getClosestPercentilesValues erroringStore "KubePodNotReady"
        = (StatisticalDuration.zero, "", some "no historical data")
      ∧ percentileAllowances.FlakeAfter erroringStore "KubePodNotReady" = 0 :=
  ⟨rfl,
    (percentileAllowances_FlakeAfter_ignores_error erroringStore "KubePodNotReady"
      StatisticalDuration.zero "" (some "no historical data") rfl).2 rfl⟩

end Allowedalerts

/-! ## Timeline ordering: the construction group -/

namespace Monitorapi

/-- C10: when `intervals[i]` is pod-constructed (message contains `constructed`, locator
contains `pod/`) and `intervals[j]` is not, `Less(i, j)` is true and `Less(j, i)` is false,
whatever the times, messages and namespaces of the two. -/
theorem Less_podConstructed_before_others (intervals : ByTimeWithNamespacedPods) (i j : Int)
    (a b : EventInterval)
    (hi : intervals.elemAt i = some a) (hj : intervals.elemAt j = some b)
    (ha : stringsContains a.Message "constructed" = true
      ∧ stringsContains a.Locator "pod/" = true)
    (hb : ¬ (stringsContains b.Message "constructed" = true
      ∧ stringsContains b.Locator "pod/" = true)) :
    intervals.Less i j = some true ∧ intervals.Less j i = some false := by
  have pa : isPodConstructed a = true := by simp [isPodConstructed, ha.1, ha.2]
  have pb : isPodConstructed b = false := by
    simpa [isPodConstructed] using hb
  simp [ByTimeWithNamespacedPods.Less, hi, hj, lessIntervals, pa, pb]

/-- C10 on `constructedAfterReady`: the constructed interval of namespace `b` (index 1, from
500) sorts before the interval of namespace `a` that starts at 100 and is not constructed. -/
theorem Less_podConstructed_before_others_witness :
    constructedAfterReady.Less 1 0 = some true ∧ constructedAfterReady.Less 0 1 = some false :=
  Less_podConstructed_before_others constructedAfterReady 1 0
    { Locator := "ns/b pod/p2 uid/u2", Message := "constructed/true pod was created",
      From := ⟨500⟩, To := ⟨500⟩ }
    { Locator := "ns/a pod/p1 uid/u1", Message := "reason/Ready ready",
      From := ⟨100⟩, To := ⟨200⟩ }
    (by decide) (by decide) (by decide) (by decide)

end Monitorapi

/-! ## The order on strings and on instants -/

namespace Monitorapi

theorem char_eq_of_toNat (a b : Char) (h1 : ¬ a.toNat < b.toNat) (h2 : ¬ b.toNat < a.toNat) :
    a = b := by
  apply Char.ext
  apply UInt32.ext
  have e : a.toNat = b.toNat := by omega
  exact e

theorem ltChars_iff_lt (s t : List Char) : ltChars s t = true ↔ s < t := by
  induction s generalizing t with
  | nil =>
    cases t with
    | nil => simp [ltChars]
    | cons b bs =>
      simp only [ltChars, true_iff]
      exact List.Lex.nil
  | cons a as ih =>
    cases t with
    | nil => simp [ltChars]
    | cons b bs =>
      unfold ltChars
      by_cases h1 : a.toNat < b.toNat
      · simp only [h1, if_true, true_iff]
        exact List.Lex.rel h1
      · by_cases h2 : b.toNat < a.toNat
        · simp only [h1, h2, if_false, if_true]
          constructor
          · intro h; cases h
          · intro h
            have hba : (b :: bs) < (a :: as) := List.Lex.rel h2
            exact absurd h (lt_asymm hba)
        · simp only [h1, h2, if_false]
          have e := char_eq_of_toNat a b h1 h2
          subst e
          rw [ih bs]
          exact (List.Lex.cons_iff).symm

/-- The comparison `s < t` of the code is the linear order on strings. -/
theorem stringLt_iff_lt (s t : String) : stringLt s t = true ↔ s < t := by
  rw [String.lt_iff_toList_lt]
  exact ltChars_iff_lt s.data t.data

theorem stringLt_eq_false_iff (s t : String) : stringLt s t = false ↔ t ≤ s := by
  rw [← not_lt, ← stringLt_iff_lt]
  simp

theorem minDuration_eq : minDuration = -9223372036854775808 := by
  unfold minDuration; norm_num

theorem maxDuration_eq : maxDuration = 9223372036854775807 := by
  unfold maxDuration; norm_num

theorem Time.Sub_neg_iff (t u : Time) : t.Sub u < 0 ↔ t.nanos < u.nanos := by
  unfold Time.Sub
  simp only [minDuration_eq, maxDuration_eq]
  split_ifs with h1 h2
  · constructor
    · intro _; omega
    · intro _; decide
  · constructor
    · intro h; exact absurd h (by decide)
    · intro h; omega
  · show t.nanos - u.nanos < 0 ↔ t.nanos < u.nanos
    omega

theorem Time.Sub_pos_iff (t u : Time) : t.Sub u > 0 ↔ u.nanos < t.nanos := by
  unfold Time.Sub
  simp only [minDuration_eq, maxDuration_eq]
  split_ifs with h1 h2
  · constructor
    · intro h; exact absurd h (by decide)
    · intro h; omega
  · constructor
    · intro _; omega
    · intro _; decide
  · show t.nanos - u.nanos > 0 ↔ u.nanos < t.nanos
    omega

theorem Time.eq_iff (t u : Time) : t = u ↔ t.nanos = u.nanos := by
  cases t; cases u; simp

/-- The comparison by time and message is the lexicographic comparison of
`(From, To, Message)`. -/
theorem lessByTime_iff (a b : EventInterval) :
    lessByTime a b = true ↔
      a.From.nanos < b.From.nanos
        ∨ (a.From.nanos = b.From.nanos
          ∧ (a.To.nanos < b.To.nanos
            ∨ (a.To.nanos = b.To.nanos ∧ a.Message < b.Message))) := by
  unfold lessByTime
  simp only [Time.Sub_neg_iff, Time.Sub_pos_iff, gt_iff_lt]
  by_cases h1 : a.From.nanos < b.From.nanos
  · simp [h1]
  · by_cases h2 : b.From.nanos < a.From.nanos
    · have hne : a.From.nanos ≠ b.From.nanos := by omega
      simp [h1, h2, hne]
    · have he : a.From.nanos = b.From.nanos := by omega
      by_cases h3 : a.To.nanos < b.To.nanos
      · simp [h1, h2, he, h3]
      · by_cases h4 : b.To.nanos < a.To.nanos
        · have hne : a.To.nanos ≠ b.To.nanos := by omega
          simp [h1, h2, he, h3, h4, hne]
        · have he2 : a.To.nanos = b.To.nanos := by omega
          simp [he, he2, stringLt_iff_lt]

/-- The comparison of times, then messages, as a comparison of the last three components of
the key. -/
theorem lessByTime_iff_lex (a b : EventInterval) :
    lessByTime a b = true ↔
      (toLex (a.From.nanos, toLex (a.To.nanos, a.Message)) : ℤ ×ₗ (ℤ ×ₗ String))
        < toLex (b.From.nanos, toLex (b.To.nanos, b.Message)) := by
  rw [lessByTime_iff, Prod.Lex.lt_iff]
  simp only [Prod.Lex.lt_iff]

/-- `Less` on two elements is the lexicographic comparison of their keys. -/
theorem lessIntervals_iff_sortKey_lt (a b : EventInterval) :
    lessIntervals a b = true ↔ sortKey a < sortKey b := by
  unfold lessIntervals sortKey
  cases ha : isPodConstructed a <;> cases hb : isPodConstructed b
  · simp [Prod.Lex.lt_iff, lessByTime_iff_lex]
  · simp [Prod.Lex.lt_iff]
  · simp [Prod.Lex.lt_iff]
  · simp only [Bool.and_self, if_true]
    rw [Prod.Lex.lt_iff, Prod.Lex.lt_iff]
    simp only [lt_self_iff_false, true_and, false_or]
    by_cases h1 : NamespaceFromLocator a.Locator < NamespaceFromLocator b.Locator
    · simp [(stringLt_iff_lt _ _).2 h1, h1]
    · by_cases h2 : NamespaceFromLocator b.Locator < NamespaceFromLocator a.Locator
      · have hne : NamespaceFromLocator a.Locator ≠ NamespaceFromLocator b.Locator :=
          fun e => h1 (e ▸ (e ▸ h2 : _))
        have f1 : stringLt (NamespaceFromLocator a.Locator) (NamespaceFromLocator b.Locator)
            = false := by
          rw [stringLt_eq_false_iff]; exact le_of_lt h2
        simp [f1, (stringLt_iff_lt _ _).2 h2, h1, hne]
      · have he : NamespaceFromLocator a.Locator = NamespaceFromLocator b.Locator :=
          le_antisymm (not_lt.1 h2) (not_lt.1 h1)
        have f1 : stringLt (NamespaceFromLocator a.Locator) (NamespaceFromLocator b.Locator)
            = false := by
          rw [stringLt_eq_false_iff]; exact not_lt.1 h1
        have f2 : stringLt (NamespaceFromLocator b.Locator) (NamespaceFromLocator a.Locator)
            = false := by
          rw [stringLt_eq_false_iff]; exact not_lt.1 h2
        simp only [f1, f2]
        simp [he, lessByTime_iff_lex]

theorem lessIntervals_eq_false_iff (a b : EventInterval) :
    lessIntervals a b = false ↔ sortKey b ≤ sortKey a := by
  rw [← not_lt, ← lessIntervals_iff_sortKey_lt]
  simp

/-! ## `Less` on the elements of a slice -/

theorem elemAt_natCast (intervals : ByTimeWithNamespacedPods) (n : Nat) :
    intervals.elemAt (n : Int) = intervals.get? n := by
  simp [ByTimeWithNamespacedPods.elemAt]

theorem elemAt_of_lt (intervals : ByTimeWithNamespacedPods) (n : Nat)
    (h : n < intervals.length) : intervals.elemAt (n : Int) = some intervals[n] := by
  rw [elemAt_natCast, List.get?_eq_getElem?]
  exact List.getElem?_eq_getElem h

theorem Less_of_elemAt (intervals : ByTimeWithNamespacedPods) (i j : Int) (a b : EventInterval)
    (hi : intervals.elemAt i = some a) (hj : intervals.elemAt j = some b) :
    intervals.Less i j = some (lessIntervals a b) := by
  simp [ByTimeWithNamespacedPods.Less, hi, hj]

theorem Less_eq_some_iff (intervals : ByTimeWithNamespacedPods) (i j : Int) (r : Bool) :
    intervals.Less i j = some r ↔
      ∃ a b, intervals.elemAt i = some a ∧ intervals.elemAt j = some b
        ∧ lessIntervals a b = r := by
  unfold ByTimeWithNamespacedPods.Less
  cases hi : intervals.elemAt i <;> cases hj : intervals.elemAt j <;> simp

/-- A slice is sorted with respect to `Less` exactly when each element is not `Less` than
any element before it. -/
theorem SortedByLess_iff_pairwise (intervals : ByTimeWithNamespacedPods) :
    SortedByLess intervals ↔ intervals.Pairwise (fun a b => lessIntervals b a = false) := by
  rw [List.pairwise_iff_getElem]
  unfold SortedByLess
  constructor
  · intro h i j hi hj hij
    have e := h j hj i hij
    rw [Less_of_elemAt intervals j i intervals[j] intervals[i]
      (elemAt_of_lt intervals j hj) (elemAt_of_lt intervals i hi)] at e
    exact Option.some.inj e
  · intro h j hj i hij
    have hi : i < intervals.length := lt_trans hij hj
    rw [Less_of_elemAt intervals j i intervals[j] intervals[i]
      (elemAt_of_lt intervals j hj) (elemAt_of_lt intervals i hi)]
    exact congrArg some (h i j hi hj hij)

/-! ## Timeline ordering: the claims -/

/-- C11: for pod-constructed `intervals[i]` and `intervals[j]` whose locators decode to
different namespaces, `Less(i, j)` is true exactly when the namespace of `intervals[i]` is
lexicographically smaller, whatever the times and messages; an empty (or missing) namespace
sorts first. -/
theorem Less_constructed_by_namespace (intervals : ByTimeWithNamespacedPods) (i j : Int)
    (a b : EventInterval)
    (hi : intervals.elemAt i = some a) (hj : intervals.elemAt j = some b)
    (ha : stringsContains a.Message "constructed" = true
      ∧ stringsContains a.Locator "pod/" = true)
    (hb : stringsContains b.Message "constructed" = true
      ∧ stringsContains b.Locator "pod/" = true)
    (hne : NamespaceFromLocator a.Locator ≠ NamespaceFromLocator b.Locator) :
    intervals.Less i j
        = some (stringLt (NamespaceFromLocator a.Locator) (NamespaceFromLocator b.Locator))
      ∧ (intervals.Less i j = some true ↔
          NamespaceFromLocator a.Locator < NamespaceFromLocator b.Locator)
      ∧ (NamespaceFromLocator a.Locator = "" → intervals.Less i j = some true) := by
  have pa : isPodConstructed a = true := by simp [isPodConstructed, ha.1, ha.2]
  have pb : isPodConstructed b = true := by simp [isPodConstructed, hb.1, hb.2]
  have key : lessIntervals a b
      = stringLt (NamespaceFromLocator a.Locator) (NamespaceFromLocator b.Locator) := by
    unfold lessIntervals
    simp only [pa, pb, Bool.and_self, if_true]
    by_cases h1 : NamespaceFromLocator a.Locator < NamespaceFromLocator b.Locator
    · simp [(stringLt_iff_lt _ _).2 h1]
    · have h2 : NamespaceFromLocator b.Locator < NamespaceFromLocator a.Locator :=
        lt_of_le_of_ne (not_lt.1 h1) (Ne.symm hne)
      have f1 : stringLt (NamespaceFromLocator a.Locator) (NamespaceFromLocator b.Locator)
          = false := (stringLt_eq_false_iff _ _).2 (le_of_lt h2)
      simp [f1, (stringLt_iff_lt _ _).2 h2]
  rw [Less_of_elemAt intervals i j a b hi hj, key]
  refine ⟨rfl, ?_, ?_⟩
  · rw [← stringLt_iff_lt]
    simp
  · intro he
    have hb0 : (NamespaceFromLocator b.Locator).data ≠ [] := by
      intro h0
      apply hne
      rw [he]
      exact String.ext (by simp [h0])
    rw [he]
    unfold stringLt
    cases hd : (NamespaceFromLocator b.Locator).data with
    | nil => exact absurd hd hb0
    | cons c cs => rfl

/-- C11 on `scenarioInput`: `B` (index 1, namespace `a`, from 20) is `Less` than `A` (index
0, namespace `b`, from 30). -/
theorem Less_constructed_by_namespace_witness :
    scenarioInput.Less 1 0 = some true :=
  ((Less_constructed_by_namespace scenarioInput 1 0
      { Locator := "ns/a pod/p1", Message := "constructed/true", From := ⟨20⟩, To := ⟨20⟩ }
      { Locator := "ns/b pod/p2", Message := "constructed/true", From := ⟨30⟩, To := ⟨30⟩ }
      (by decide) (by decide) (by decide) (by decide) (by decide)).1).trans (by decide)

/-- C12: for `intervals[i]` and `intervals[j]` that are both not pod-constructed, or both
pod-constructed with equal namespaces, `Less(i, j)` returns, and it is true if and only if
`(From, To, Message)` of the first is lexicographically smaller: `From` earlier; or `From`
equal and `To` earlier; or both equal and the message smaller as a string. -/
theorem Less_by_time_then_message (intervals : ByTimeWithNamespacedPods) (i j : Int)
    (a b : EventInterval)
    (hi : intervals.elemAt i = some a) (hj : intervals.elemAt j = some b)
    (h : (isPodConstructed a = false ∧ isPodConstructed b = false)
      ∨ (isPodConstructed a = true ∧ isPodConstructed b = true
        ∧ NamespaceFromLocator a.Locator = NamespaceFromLocator b.Locator)) :
    (intervals.Less i j = some true ∨ intervals.Less i j = some false)
      ∧ (intervals.Less i j = some true ↔
          a.From.nanos < b.From.nanos
            ∨ (a.From = b.From ∧ a.To.nanos < b.To.nanos)
            ∨ (a.From = b.From ∧ a.To = b.To ∧ stringLt a.Message b.Message = true)) := by
  have key : lessIntervals a b = lessByTime a b := by
    unfold lessIntervals
    rcases h with ⟨pa, pb⟩ | ⟨pa, pb, hns⟩
    · simp [pa, pb]
    · have f : stringLt (NamespaceFromLocator b.Locator) (NamespaceFromLocator b.Locator)
          = false := (stringLt_eq_false_iff _ _).2 (le_refl _)
      simp [pa, pb, hns, f]
  rw [Less_of_elemAt intervals i j a b hi hj, key]
  constructor
  · cases lessByTime a b <;> simp
  · rw [Option.some_inj, lessByTime_iff, Time.eq_iff, Time.eq_iff, stringLt_iff_lt]
    constructor
    · rintro (h1 | ⟨h1, h2 | ⟨h2, h3⟩⟩)
      · exact Or.inl h1
      · exact Or.inr (Or.inl ⟨h1, h2⟩)
      · exact Or.inr (Or.inr ⟨h1, h2, h3⟩)
    · rintro (h1 | ⟨h1, h2⟩ | ⟨h1, h2, h3⟩)
      · exact Or.inl h1
      · exact Or.inr ⟨h1, Or.inl h2⟩
      · exact Or.inr ⟨h1, Or.inr ⟨h2, h3⟩⟩

/-- C12 on `sameStart`: with equal `From`, the interval that ends at 7 is `Less` than the
one that ends at 9. -/
theorem Less_by_time_then_message_witness :
    sameStart.Less 0 1 = some true :=
  ((Less_by_time_then_message sameStart 0 1
      { Locator := "ns/a pod/p", Message := "reason/Ready", From := ⟨5⟩, To := ⟨7⟩ }
      { Locator := "ns/a pod/p", Message := "reason/NotReady", From := ⟨5⟩, To := ⟨9⟩ }
      (by decide) (by decide) (Or.inl (by decide))).2).2 (Or.inr (Or.inl (by decide)))

/-- C13: `Less` is irreflexive and asymmetric: `Less(i, i)` is never true, and is false for
every index of the slice (outside the slice the index expression panics); `Less(i, j)` and
`Less(j, i)` are never both true. -/
theorem Less_irreflexive_asymmetric (intervals : ByTimeWithNamespacedPods) (i j : Int) :
    intervals.Less i i ≠ some true
      ∧ (intervals.Less i i = some false ↔ ∃ a, intervals.elemAt i = some a)
      ∧ ¬ (intervals.Less i j = some true ∧ intervals.Less j i = some true) := by
  have irr : ∀ a : EventInterval, lessIntervals a a = false := fun a =>
    (lessIntervals_eq_false_iff a a).2 (le_refl _)
  refine ⟨?_, ?_, ?_⟩
  · intro h
    obtain ⟨a, b, hi, hi', hab⟩ := (Less_eq_some_iff intervals i i true).1 h
    have e : b = a := Option.some.inj (hi'.symm.trans hi)
    subst e
    rw [irr b] at hab
    exact Bool.noConfusion hab
  · constructor
    · intro h
      obtain ⟨a, _, hi, _, _⟩ := (Less_eq_some_iff intervals i i false).1 h
      exact ⟨a, hi⟩
    · rintro ⟨a, hi⟩
      rw [Less_of_elemAt intervals i i a a hi hi, irr a]
  · rintro ⟨h1, h2⟩
    obtain ⟨a, b, hi, hj, hab⟩ := (Less_eq_some_iff intervals i j true).1 h1
    rw [Less_of_elemAt intervals j i b a hj hi, Option.some_inj,
      lessIntervals_iff_sortKey_lt] at h2
    exact lt_asymm ((lessIntervals_iff_sortKey_lt a b).1 hab) h2

/-- C14: `Less` is transitive: if `Less(i, j)` and `Less(j, k)` are true then `Less(i, k)` is
true, for any mix of pod-constructed and other intervals. -/
theorem Less_transitive (intervals : ByTimeWithNamespacedPods) (i j k : Int)
    (hij : intervals.Less i j = some true) (hjk : intervals.Less j k = some true) :
    intervals.Less i k = some true := by
  obtain ⟨a, b, hi, hj, hab⟩ := (Less_eq_some_iff intervals i j true).1 hij
  obtain ⟨b', c, hj', hk, hbc⟩ := (Less_eq_some_iff intervals j k true).1 hjk
  have e : b' = b := Option.some.inj (hj'.symm.trans hj)
  subst e
  rw [Less_of_elemAt intervals i k a c hi hk, Option.some_inj, lessIntervals_iff_sortKey_lt]
  exact lt_trans ((lessIntervals_iff_sortKey_lt a b').1 hab)
    ((lessIntervals_iff_sortKey_lt b' c).1 hbc)

/-- C14 on `scenarioInput`: `B` before `A` (namespace) and `A` before `C` (constructed first)
give `B` before `C`. -/
theorem Less_transitive_witness :
    scenarioInput.Less 1 2 = some true :=
  Less_transitive scenarioInput 1 0 2 (by decide) (by decide)

/-- C15: incomparability under `Less` is transitive: if neither `Less(i, j)` nor `Less(j, i)`
and neither `Less(j, k)` nor `Less(k, j)`, then neither `Less(i, k)` nor `Less(k, i)`. -/
theorem Less_incomparable_transitive (intervals : ByTimeWithNamespacedPods) (i j k : Int)
    (hij : intervals.Less i j = some false) (hji : intervals.Less j i = some false)
    (hjk : intervals.Less j k = some false) (hkj : intervals.Less k j = some false) :
    intervals.Less i k = some false ∧ intervals.Less k i = some false := by
  obtain ⟨a, b, hi, hj, hab⟩ := (Less_eq_some_iff intervals i j false).1 hij
  obtain ⟨b', c, hj', hk, hbc⟩ := (Less_eq_some_iff intervals j k false).1 hjk
  have e : b' = b := Option.some.inj (hj'.symm.trans hj)
  subst e
  rw [Less_of_elemAt intervals j i b' a hj hi, Option.some_inj] at hji
  rw [Less_of_elemAt intervals k j c b' hk hj, Option.some_inj] at hkj
  rw [lessIntervals_eq_false_iff] at hab hji hbc hkj
  have e1 : sortKey a = sortKey b' := le_antisymm hji hab
  have e2 : sortKey b' = sortKey c := le_antisymm hkj hbc
  rw [Less_of_elemAt intervals i k a c hi hk, Less_of_elemAt intervals k i c a hk hi,
    Option.some_inj, Option.some_inj, lessIntervals_eq_false_iff, lessIntervals_eq_false_iff,
    e1, e2]
  exact ⟨le_refl _, le_refl _⟩

/-- C15 on `onlyLocatorsDiffer`, whose three intervals are mutually incomparable. -/
theorem Less_incomparable_transitive_witness :
    onlyLocatorsDiffer.Less 0 2 = some false ∧ onlyLocatorsDiffer.Less 2 0 = some false :=
  Less_incomparable_transitive onlyLocatorsDiffer 0 1 2 (by decide) (by decide) (by decide)
    (by decide)

/-- C16, as stated, fails: in `constructedTie` the two intervals have the same `From` and
`To` and the message `a` of the first is smaller than the message `constructed` of the
second, yet the second, being pod-constructed, is `Less` than the first. -/
theorem Less_smaller_message_counterexample :
    constructedTie.elemAt 0
        = some { Locator := "ns/a pod/p", Message := "a", From := ⟨1⟩, To := ⟨2⟩ }
      ∧ constructedTie.elemAt 1
        = some { Locator := "ns/a pod/p", Message := "constructed", From := ⟨1⟩, To := ⟨2⟩ }
      ∧ stringLt "a" "constructed" = true
      ∧ constructedTie.Less 0 1 = some false
      ∧ constructedTie.Less 1 0 = some true := by
  decide

/-- C16, amended: for two intervals with identical `From` and identical `To`, if the message
of the first is lexicographically smaller then `Less(i, j)` is true and `Less(j, i)` is false,
unless the second is pod-constructed and the first is not, or both are pod-constructed and
the namespace of the second is smaller than that of the first. -/
theorem Less_smaller_message_first (intervals : ByTimeWithNamespacedPods) (i j : Int)
    (a b : EventInterval)
    (hi : intervals.elemAt i = some a) (hj : intervals.elemAt j = some b)
    (hF : a.From = b.From) (hT : a.To = b.To) (hM : stringLt a.Message b.Message = true)
    (h1 : ¬ (isPodConstructed b = true ∧ isPodConstructed a = false))
    (h2 : ¬ (isPodConstructed a = true ∧ isPodConstructed b = true
      ∧ stringLt (NamespaceFromLocator b.Locator) (NamespaceFromLocator a.Locator) = true)) :
    intervals.Less i j = some true ∧ intervals.Less j i = some false := by
  have hlt : sortKey a < sortKey b := by
    have hM' : a.Message < b.Message := (stringLt_iff_lt _ _).1 hM
    unfold sortKey
    cases pa : isPodConstructed a <;> cases pb : isPodConstructed b
    · simp [Prod.Lex.lt_iff, hF, hT, hM']
    · exact absurd ⟨pb, pa⟩ h1
    · simp [Prod.Lex.lt_iff]
    · have hle : NamespaceFromLocator a.Locator ≤ NamespaceFromLocator b.Locator := by
        rw [← not_lt, ← stringLt_iff_lt]
        exact fun h => h2 ⟨pa, pb, h⟩
      rcases lt_or_eq_of_le hle with h | h
      · simp [Prod.Lex.lt_iff, h]
      · simp [Prod.Lex.lt_iff, h, hF, hT, hM']
  rw [Less_of_elemAt intervals i j a b hi hj, Less_of_elemAt intervals j i b a hj hi,
    Option.some_inj, Option.some_inj, lessIntervals_iff_sortKey_lt, lessIntervals_eq_false_iff]
  exact ⟨hlt, le_of_lt hlt⟩

/-- The amended C16 on two intervals that are not constructed and have the same times: the
one with message `reason/NotReady` (index 1) is `Less` than the one with `reason/Ready`. -/
theorem Less_smaller_message_first_witness :
    ByTimeWithNamespacedPods.Less
        [ { Locator := "ns/a pod/p", Message := "reason/Ready", From := ⟨5⟩, To := ⟨7⟩ },
          { Locator := "ns/a pod/q", Message := "reason/NotReady", From := ⟨5⟩, To := ⟨7⟩ } ]
        1 0 = some true
      ∧ ByTimeWithNamespacedPods.Less
        [ { Locator := "ns/a pod/p", Message := "reason/Ready", From := ⟨5⟩, To := ⟨7⟩ },
          { Locator := "ns/a pod/q", Message := "reason/NotReady", From := ⟨5⟩, To := ⟨7⟩ } ]
        0 1 = some false :=
  Less_smaller_message_first
    [ { Locator := "ns/a pod/p", Message := "reason/Ready", From := ⟨5⟩, To := ⟨7⟩ },
      { Locator := "ns/a pod/q", Message := "reason/NotReady", From := ⟨5⟩, To := ⟨7⟩ } ]
    1 0
    { Locator := "ns/a pod/q", Message := "reason/NotReady", From := ⟨5⟩, To := ⟨7⟩ }
    { Locator := "ns/a pod/p", Message := "reason/Ready", From := ⟨5⟩, To := ⟨7⟩ }
    (by decide) (by decide) (by decide) (by decide) (by decide) (by decide) (by decide)

/-- C17: with `A = {ns/b pod/p2, message containing "constructed", From t0}`,
`B = {ns/a pod/p1, message containing "constructed", From t1}` and
`C = {ns/a pod/p1, "ready", From t2}`, the only permutation of `[A, B, C]` that is sorted with
respect to `Less` is `[B, A, C]`; this holds for all times, in particular for
`t0 > t1 > t2`. -/
theorem scenario_sorted_iff (msgA msgB : String) (t0 t1 t2 toA toB toC : Time)
    (hA : stringsContains msgA "constructed" = true)
    (hB : stringsContains msgB "constructed" = true)
    (l : ByTimeWithNamespacedPods)
    (hl : l.Perm
      [ { Locator := "ns/b pod/p2", Message := msgA, From := t0, To := toA },
        { Locator := "ns/a pod/p1", Message := msgB, From := t1, To := toB },
        { Locator := "ns/a pod/p1", Message := "ready", From := t2, To := toC } ]) :
    SortedByLess l ↔
      l = [ { Locator := "ns/a pod/p1", Message := msgB, From := t1, To := toB },
            { Locator := "ns/b pod/p2", Message := msgA, From := t0, To := toA },
            { Locator := "ns/a pod/p1", Message := "ready", From := t2, To := toC } ] := by
  have pA : isPodConstructed
      { Locator := "ns/b pod/p2", Message := msgA, From := t0, To := toA } = true := by
    simp only [isPodConstructed, hA, Bool.true_and]; decide
  have pB : isPodConstructed
      { Locator := "ns/a pod/p1", Message := msgB, From := t1, To := toB } = true := by
    simp only [isPodConstructed, hB, Bool.true_and]; decide
  have pC : isPodConstructed
      { Locator := "ns/a pod/p1", Message := "ready", From := t2, To := toC } = false := by
    simp only [isPodConstructed]; decide
  have nA : NamespaceFromLocator "ns/b pod/p2" = "b" := by decide
  have nB : NamespaceFromLocator "ns/a pod/p1" = "a" := by decide
  have ab : stringLt "a" "b" = true := by decide
  have ba : stringLt "b" "a" = false := by decide
  have hBA : lessIntervals { Locator := "ns/a pod/p1", Message := msgB, From := t1, To := toB }
      { Locator := "ns/b pod/p2", Message := msgA, From := t0, To := toA } = true := by
    simp [lessIntervals, pA, pB, nA, nB, ab]
  have hAB : lessIntervals { Locator := "ns/b pod/p2", Message := msgA, From := t0, To := toA }
      { Locator := "ns/a pod/p1", Message := msgB, From := t1, To := toB } = false := by
    simp [lessIntervals, pA, pB, nA, nB, ab, ba]
  have hAC : lessIntervals { Locator := "ns/b pod/p2", Message := msgA, From := t0, To := toA }
      { Locator := "ns/a pod/p1", Message := "ready", From := t2, To := toC } = true := by
    simp [lessIntervals, pA, pC]
  have hCA : lessIntervals { Locator := "ns/a pod/p1", Message := "ready", From := t2, To := toC }
      { Locator := "ns/b pod/p2", Message := msgA, From := t0, To := toA } = false := by
    simp [lessIntervals, pA, pC]
  have hBC : lessIntervals { Locator := "ns/a pod/p1", Message := msgB, From := t1, To := toB }
      { Locator := "ns/a pod/p1", Message := "ready", From := t2, To := toC } = true := by
    simp [lessIntervals, pB, pC]
  have hCB : lessIntervals { Locator := "ns/a pod/p1", Message := "ready", From := t2, To := toC }
      { Locator := "ns/a pod/p1", Message := msgB, From := t1, To := toB } = false := by
    simp [lessIntervals, pB, pC]
  have rA : ¬ "ready" = msgA := by
    intro e; rw [← e] at hA; exact absurd hA (by decide)
  have rB : ¬ "ready" = msgB := by
    intro e; rw [← e] at hB; exact absurd hB (by decide)
  have hmem := (List.mem_permutations'.2 hl)
  simp [List.permutations', List.permutations'Aux] at hmem
  rw [SortedByLess_iff_pairwise]
  rcases hmem with h | h | h | h | h | h <;> subst h <;>
    simp [List.pairwise_cons, hAB, hBA, hAC, hCA, hBC, hCB, rA, rB]

/-- C17 on the sample scenario with `t0 = 30 > t1 = 20 > t2 = 10`: the order `B`, `A`, `C`
is sorted, the input order `A`, `B`, `C` is not. -/
theorem scenario_sorted_iff_witness :
    SortedByLess scenarioSorted ∧ ¬ SortedByLess scenarioInput :=
  ⟨(scenario_sorted_iff "constructed/true" "constructed/true" ⟨30⟩ ⟨20⟩ ⟨10⟩ ⟨30⟩ ⟨20⟩ ⟨10⟩
      (by decide) (by decide) scenarioSorted (List.Perm.swap _ _ _)).2 rfl,
    fun h => absurd
      ((scenario_sorted_iff "constructed/true" "constructed/true" ⟨30⟩ ⟨20⟩ ⟨10⟩ ⟨30⟩ ⟨20⟩ ⟨10⟩
        (by decide) (by decide) scenarioInput (List.Perm.refl _)).1 h) (by decide)⟩

/-! ## Totality -/

/-- Two intervals have the same key exactly when the comparison does not tell them apart. -/
theorem sortKey_eq_iff (a b : EventInterval) : sortKey a = sortKey b ↔ ¬ orderedApart a b := by
  unfold sortKey orderedApart
  cases pa : isPodConstructed a <;> cases pb : isPodConstructed b <;>
    simp [Time.eq_iff, Prod.ext_iff] <;> tauto

theorem eq_of_map_eq_map {α β : Type} (f : α → β) :
    ∀ l₁ l₂ : List α, l₁.map f = l₂.map f →
      (∀ x ∈ l₁, ∀ y ∈ l₂, f x = f y → x = y) → l₁ = l₂ := by
  intro l₁
  induction l₁ with
  | nil =>
    intro l₂ h _
    cases l₂ with
    | nil => rfl
    | cons y ys => simp at h
  | cons x xs ih =>
    intro l₂ h hinj
    cases l₂ with
    | nil => simp at h
    | cons y ys =>
      simp only [List.map_cons, List.cons.injEq] at h
      have e : x = y := hinj x (List.mem_cons_self _ _) y (List.mem_cons_self _ _) h.1
      have t : xs = ys := ih ys h.2 (fun u hu v hv huv =>
        hinj u (List.mem_cons_of_mem _ hu) v (List.mem_cons_of_mem _ hv) huv)
      rw [e, t]

theorem sorted_map_sortKey (l : ByTimeWithNamespacedPods) (h : SortedByLess l) :
    (l.map sortKey).Pairwise (fun x y => x ≤ y) := by
  rw [List.pairwise_map]
  rw [SortedByLess_iff_pairwise] at h
  exact h.imp (fun {a b} hab => (lessIntervals_eq_false_iff b a).1 hab)

/-- Two sorted arrangements of the same intervals are equal when the comparison tells any two
different intervals among them apart. -/
theorem sorted_arrangement_unique (l₁ l₂ : ByTimeWithNamespacedPods)
    (hd : ∀ x ∈ l₁, ∀ y ∈ l₁, x ≠ y → orderedApart x y)
    (hp : l₁.Perm l₂) (h₁ : SortedByLess l₁) (h₂ : SortedByLess l₂) : l₁ = l₂ := by
  have hk : l₁.map sortKey = l₂.map sortKey :=
    List.eq_of_perm_of_sorted (hp.map sortKey) (sorted_map_sortKey l₁ h₁)
      (sorted_map_sortKey l₂ h₂)
  refine eq_of_map_eq_map sortKey l₁ l₂ hk (fun x hx y hy hxy => ?_)
  by_contra hne
  exact (sortKey_eq_iff x y).1 hxy (hd x hx y (hp.mem_iff.2 hy) hne)

/-- C18, as stated, fails: the first two intervals of `onlyLocatorsDiffer` differ (in
`Locator`), yet neither is `Less` than the other, and both arrangements of the two are
sorted. -/
theorem Less_total_counterexample :
    onlyLocatorsDiffer.elemAt 0
        = some { Locator := "ns/a pod/x", Message := "ready", From := ⟨1⟩, To := ⟨2⟩ }
      ∧ onlyLocatorsDiffer.elemAt 1
        = some { Locator := "ns/b pod/y", Message := "ready", From := ⟨1⟩, To := ⟨2⟩ }
      ∧ onlyLocatorsDiffer.Less 0 1 = some false
      ∧ onlyLocatorsDiffer.Less 1 0 = some false
      ∧ SortedByLess
          [ { Locator := "ns/a pod/x", Message := "ready", From := ⟨1⟩, To := ⟨2⟩ },
            { Locator := "ns/b pod/y", Message := "ready", From := ⟨1⟩, To := ⟨2⟩ } ]
      ∧ SortedByLess
          [ { Locator := "ns/b pod/y", Message := "ready", From := ⟨1⟩, To := ⟨2⟩ },
            { Locator := "ns/a pod/x", Message := "ready", From := ⟨1⟩, To := ⟨2⟩ } ] := by
  decide

/-- C18, amended: exactly one of `Less(i, j)`, `Less(j, i)` is true if and only if the two
intervals differ in `Message`, `From` or `To`, or in being pod-constructed, or are both
pod-constructed with different namespaces; otherwise both are false.  A collection in which
any two different intervals differ in this way has a single sorted arrangement. -/
theorem Less_total_of_orderedApart :
    (∀ (intervals : ByTimeWithNamespacedPods) (i j : Int) (a b : EventInterval),
        intervals.elemAt i = some a → intervals.elemAt j = some b →
        (orderedApart a b ↔
          ((intervals.Less i j = some true ∧ intervals.Less j i = some false)
            ∨ (intervals.Less i j = some false ∧ intervals.Less j i = some true)))
        ∧ (¬ orderedApart a b ↔
          (intervals.Less i j = some false ∧ intervals.Less j i = some false)))
      ∧ (∀ l₁ l₂ : ByTimeWithNamespacedPods,
          (∀ x ∈ l₁, ∀ y ∈ l₁, x ≠ y → orderedApart x y) →
          l₁.Perm l₂ → SortedByLess l₁ → SortedByLess l₂ → l₁ = l₂) := by
  refine ⟨fun intervals i j a b hi hj => ?_, sorted_arrangement_unique⟩
  rw [Less_of_elemAt intervals i j a b hi hj, Less_of_elemAt intervals j i b a hj hi]
  simp only [Option.some_inj, lessIntervals_iff_sortKey_lt, lessIntervals_eq_false_iff]
  refine ⟨⟨?_, ?_⟩, ?_⟩
  · intro h
    have hne : sortKey a ≠ sortKey b := fun e => (sortKey_eq_iff a b).1 e h
    rcases lt_or_gt_of_ne hne with h1 | h1
    · exact Or.inl ⟨h1, le_of_lt h1⟩
    · exact Or.inr ⟨le_of_lt h1, h1⟩
  · intro h
    by_contra hn
    have e : sortKey a = sortKey b := (sortKey_eq_iff a b).2 hn
    rcases h with ⟨h1, _⟩ | ⟨_, h1⟩
    · exact absurd h1 (by rw [e]; exact lt_irrefl _)
    · exact absurd h1 (by rw [e]; exact lt_irrefl _)
  · rw [← sortKey_eq_iff]
    exact ⟨fun e => ⟨le_of_eq e.symm, le_of_eq e⟩, fun h => le_antisymm h.2 h.1⟩

/-- The amended C18 on `sameStart`, whose two intervals differ in `To` and message: the first
is `Less` than the second and not conversely. -/
theorem Less_total_of_orderedApart_witness :
    (sameStart.Less 0 1 = some true ∧ sameStart.Less 1 0 = some false)
      ∨ (sameStart.Less 0 1 = some false ∧ sameStart.Less 1 0 = some true) :=
  (Less_total_of_orderedApart.1 sameStart 0 1
    { Locator := "ns/a pod/p", Message := "reason/Ready", From := ⟨5⟩, To := ⟨7⟩ }
    { Locator := "ns/a pod/p", Message := "reason/NotReady", From := ⟨5⟩, To := ⟨9⟩ }
    (by decide) (by decide)).1.1 (by decide)

/-! ## Annotations: what one token contributes -/

theorem containsChars_singleton (l : List Char) (c : Char) :
    containsChars l [c] = true ↔ c ∈ l := by
  induction l with
  | nil => simp [containsChars]
  | cons x xs ih =>
    have hp : List.isPrefixOf [c] (x :: xs) = (c == x) := by
      cases xs <;> simp [List.isPrefixOf]
    simp only [containsChars, hp, Bool.or_eq_true, ih, List.mem_cons, beq_iff_eq]

theorem cutChars_eq_none_iff (sep : Char) (l : List Char) :
    cutChars sep l = none ↔ sep ∉ l := by
  induction l with
  | nil => simp [cutChars]
  | cons c cs ih =>
    unfold cutChars
    by_cases h : c = sep
    · simp [h]
    · have h' : ¬ sep = c := fun e => h e.symm
      cases hc : cutChars sep cs with
      | none => simp [h, h', ← ih, hc]
      | some p => simp [h, h', ← ih, hc]

theorem splitChars_of_cut (sep : Char) :
    ∀ (l k v : List Char), cutChars sep l = some (k, v) →
      splitChars sep l = k :: splitChars sep v := by
  intro l
  induction l with
  | nil => intro k v h; simp [cutChars] at h
  | cons c cs ih =>
    intro k v h
    unfold cutChars at h
    by_cases hc : c = sep
    · simp only [hc, if_true, Option.some.injEq, Prod.mk.injEq] at h
      simp [splitChars, hc, ← h.1, ← h.2]
    · simp only [hc, if_false] at h
      cases hcut : cutChars sep cs with
      | none => simp [hcut] at h
      | some p =>
        obtain ⟨k', v'⟩ := p
        simp only [hcut, Option.some.injEq, Prod.mk.injEq] at h
        simp [splitChars, hc, ih k' v' hcut, ← h.1, ← h.2]

theorem splitChars_of_cut_none (sep : Char) (l : List Char) (h : cutChars sep l = none) :
    splitChars sep l = [l] :=
  splitChars_of_not_mem sep l ((cutChars_eq_none_iff sep l).1 h)

theorem stringsContains_slash_iff (s : String) :
    stringsContains s "/" = true ↔ '/' ∈ s.data :=
  containsChars_singleton s.data '/'

theorem stringsCut_eq_none_iff (s : String) : stringsCut s '/' = none ↔ '/' ∉ s.data := by
  rw [← cutChars_eq_none_iff]
  unfold stringsCut
  cases cutChars '/' s.data with
  | none => simp
  | some p => simp

/-- The first piece of a split is the text before the first separator. -/
theorem stringsSplit_head (s : String) :
    ∃ ts, stringsSplit s '/' = beforeSlash s :: ts := by
  unfold stringsSplit beforeSlash stringsCut
  cases h : cutChars '/' s.data with
  | none => exact ⟨[], by simp [splitChars_of_cut_none _ _ h]⟩
  | some p =>
    obtain ⟨k, v⟩ := p
    exact ⟨(splitChars '/' v).map String.mk, by simp [splitChars_of_cut _ _ k v h]⟩

/-- The pieces of a token with a `/`: its key, then the pieces of the remainder. -/
theorem stringsSplit_of_cut (s key remainder : String)
    (h : stringsCut s '/' = some (key, remainder)) :
    stringsSplit s '/' = key :: stringsSplit remainder '/' := by
  unfold stringsCut at h
  cases hc : cutChars '/' s.data with
  | none => simp [hc] at h
  | some p =>
    obtain ⟨k, v⟩ := p
    simp only [hc, Option.some.injEq, Prod.mk.injEq] at h
    simp [stringsSplit, splitChars_of_cut _ _ k v hc, ← h.1, ← h.2]

/-- The loop body never panics, and it does what `annotate` says. -/
theorem annotationsLoopBody_eq (annotations : StringMap) (curr : String) :
    annotationsLoopBody annotations curr = some (annotate annotations curr) := by
  unfold annotationsLoopBody annotate annotationOf
  cases h : stringsCut curr '/' with
  | none =>
    have hn : stringsContains curr "/" = false := by
      rw [← Bool.not_eq_true, stringsContains_slash_iff]
      exact (stringsCut_eq_none_iff curr).1 h
    simp [hn]
  | some p =>
    obtain ⟨key, remainder⟩ := p
    have hc : stringsContains curr "/" = true := by
      rw [stringsContains_slash_iff]
      by_contra hn
      rw [(stringsCut_eq_none_iff curr).2 hn] at h
      exact Option.noConfusion h
    obtain ⟨ts, hts⟩ := stringsSplit_head remainder
    simp [hc, stringsSplit_of_cut curr key remainder h, hts]

theorem foldlM_annotationsLoopBody (tokens : List String) :
    ∀ annotations : StringMap,
      tokens.foldlM annotationsLoopBody annotations
        = some (tokens.foldl annotate annotations) := by
  induction tokens with
  | nil => intro annotations; rfl
  | cons t ts ih =>
    intro annotations
    rw [List.foldlM_cons, annotationsLoopBody_eq]
    exact ih (annotate annotations t)

/-- `AnnotationsFromMessage` returns for every message: the map built token by token. -/
theorem AnnotationsFromMessage_eq (message : String) :
    AnnotationsFromMessage message
      = some ((stringsSplit message ' ').foldl annotate StringMap.empty) :=
  foldlM_annotationsLoopBody _ _

theorem annotate_of_cut (annotations : StringMap) (tok key remainder : String)
    (h : stringsCut tok '/' = some (key, remainder)) :
    annotate annotations tok = annotations.set key (beforeSlash remainder) := by
  simp [annotate, annotationOf, h]

theorem annotate_of_cut_none (annotations : StringMap) (tok : String)
    (h : stringsCut tok '/' = none) : annotate annotations tok = annotations := by
  simp [annotate, annotationOf, h]

/-- Tokens with other keys leave the value of a key as it is. -/
theorem foldl_annotate_other_keys (key : String) (tokens : List String)
    (h : ∀ t ∈ tokens, ∀ r, stringsCut t '/' ≠ some (key, r)) :
    ∀ annotations : StringMap, (tokens.foldl annotate annotations) key = annotations key := by
  induction tokens with
  | nil => intro annotations; rfl
  | cons t ts ih =>
    intro annotations
    rw [List.foldl_cons, ih (fun u hu r => h u (List.mem_cons_of_mem _ hu) r)]
    cases hc : stringsCut t '/' with
    | none => rw [annotate_of_cut_none _ _ hc]
    | some p =>
      obtain ⟨k, r⟩ := p
      rw [annotate_of_cut _ _ _ _ hc]
      have hk : key ≠ k := by
        intro e
        exact h t (List.mem_cons_self _ _) r (by rw [hc, e])
      simp [StringMap.set, hk]

/-- A key is in the map after a run of tokens exactly when it was there before or is the key
of one of the tokens. -/
theorem foldl_annotate_key_iff (key : String) (tokens : List String) :
    ∀ annotations : StringMap,
      (tokens.foldl annotate annotations) key ≠ none ↔
        annotations key ≠ none ∨ ∃ t ∈ tokens, ∃ r, stringsCut t '/' = some (key, r) := by
  induction tokens with
  | nil => intro annotations; simp
  | cons t ts ih =>
    intro annotations
    rw [List.foldl_cons, ih]
    cases hc : stringsCut t '/' with
    | none =>
      rw [annotate_of_cut_none _ _ hc]
      simp [hc]
    | some p =>
      obtain ⟨k, r⟩ := p
      rw [annotate_of_cut _ _ _ _ hc]
      by_cases hk : key = k
      · subst hk
        simp [StringMap.set, hc]
      · have hk' : ¬ k = key := fun e => hk e.symm
        simp [StringMap.set, hk, hk', hc]

theorem mem_of_mem_splitChars (sep c : Char) :
    ∀ (l t : List Char), t ∈ splitChars sep l → c ∈ t → c ∈ l := by
  intro l
  induction l with
  | nil =>
    intro t ht hc
    simp [splitChars] at ht
    subst ht
    exact hc
  | cons x xs ih =>
    intro t ht hc
    unfold splitChars at ht
    by_cases hx : x = sep
    · simp only [hx, if_true, List.mem_cons] at ht
      rcases ht with ht | ht
      · subst ht; simp at hc
      · exact List.mem_cons_of_mem _ (ih t ht hc)
    · simp only [hx, if_false] at ht
      cases hs : splitChars sep xs with
      | nil => exact absurd hs (splitChars_ne_nil sep xs)
      | cons u us =>
        rw [hs] at ht
        simp only [List.mem_cons] at ht
        rcases ht with ht | ht
        · subst ht
          rcases List.mem_cons.1 hc with h | h
          · rw [h]; exact List.mem_cons_self _ _
          · exact List.mem_cons_of_mem _ (ih u (by rw [hs]; exact List.mem_cons_self _ _) h)
        · exact List.mem_cons_of_mem _
            (ih t (by rw [hs]; exact List.mem_cons_of_mem _ ht) hc)

/-! ## Annotations: the claims -/

/-- C19, as stated, fails: for the message `k/v/w` the value stored under `k` is `v`, not the
whole remainder `v/w` of the token after its first `/`. -/
theorem AnnotationsFromMessage_remainder_counterexample :
    (AnnotationsFromMessage "k/v/w").map (fun annotations => annotations "k")
        = some (some "v")
      ∧ (AnnotationsFromMessage "k/v/w").map (fun annotations => annotations "k")
        ≠ some (some "v/w") := by
  decide

/-- C19, amended: for every message and every space-separated token of it that contains `/`,
`AnnotationsFromMessage` maps the text before the first `/` of the token to the text between
its first `/` and its next `/` (to the rest of the token when it has no other `/`), provided
no later token has the same key. -/
theorem AnnotationsFromMessage_key_value (message : String) (earlier later : List String)
    (tok key remainder : String)
    (htok : stringsSplit message ' ' = earlier ++ tok :: later)
    (hcut : stringsCut tok '/' = some (key, remainder))
    (hlater : ∀ t ∈ later, ∀ r, stringsCut t '/' ≠ some (key, r)) :
    stringsContains tok "/" = true
      ∧ ∃ annotations, AnnotationsFromMessage message = some annotations
        ∧ annotations key = some (beforeSlash remainder)
        ∧ annotations.index key = beforeSlash remainder := by
  constructor
  · rw [stringsContains_slash_iff]
    by_contra hn
    rw [(stringsCut_eq_none_iff tok).2 hn] at hcut
    exact Option.noConfusion hcut
  · refine ⟨_, AnnotationsFromMessage_eq message, ?_⟩
    have e : ((stringsSplit message ' ').foldl annotate StringMap.empty) key
        = some (beforeSlash remainder) := by
      rw [htok, List.foldl_append, List.foldl_cons, foldl_annotate_other_keys key later hlater,
        annotate_of_cut _ _ _ _ hcut]
      simp [StringMap.set]
    exact ⟨e, by simp [StringMap.index, e]⟩

/-- The amended C19 on the message `k/v/w x`: the value stored under `k` is `v`. -/
theorem AnnotationsFromMessage_key_value_witness :
    stringsContains "k/v/w" "/" = true
      ∧ ∃ annotations, AnnotationsFromMessage "k/v/w x" = some annotations
        ∧ annotations "k" = some (beforeSlash "v/w")
        ∧ annotations.index "k" = beforeSlash "v/w" :=
  AnnotationsFromMessage_key_value "k/v/w x" [] ["x"] "k/v/w" "k" "v/w" (by decide) (by decide)
    (fun t ht r => by
      rw [List.mem_singleton] at ht
      subst ht
      rw [show stringsCut "x" '/' = none from by decide]
      exact fun h => Option.noConfusion h)

/-- C20: `AnnotationsFromMessage` returns for every message, and a key is present in the
result if and only if some space-separated token of the message contains `/` and has that key
as the text before its first `/`; a message containing no `/` yields the empty map. -/
theorem AnnotationsFromMessage_keys (message : String) :
    ∃ annotations, AnnotationsFromMessage message = some annotations
      ∧ (∀ key, annotations key ≠ none ↔
          ∃ tok ∈ stringsSplit message ' ',
            stringsContains tok "/" = true ∧ ∃ r, stringsCut tok '/' = some (key, r))
      ∧ (stringsContains message "/" = false → annotations = StringMap.empty) := by
  refine ⟨_, AnnotationsFromMessage_eq message, ?_, ?_⟩
  · intro key
    rw [foldl_annotate_key_iff]
    constructor
    · rintro (h | ⟨t, ht, r, hr⟩)
      · exact absurd rfl h
      · refine ⟨t, ht, ?_, r, hr⟩
        rw [stringsContains_slash_iff]
        by_contra hn
        rw [(stringsCut_eq_none_iff t).2 hn] at hr
        exact Option.noConfusion hr
    · rintro ⟨t, ht, _, r, hr⟩
      exact Or.inr ⟨t, ht, r, hr⟩
  · intro hno
    funext key
    by_contra hne
    have hne' : ((stringsSplit message ' ').foldl annotate StringMap.empty) key ≠ none := hne
    rw [foldl_annotate_key_iff] at hne'
    rcases hne' with h | ⟨t, ht, r, hr⟩
    · exact h rfl
    · have hslash : '/' ∈ t.data := by
        by_contra hn
        rw [(stringsCut_eq_none_iff t).2 hn] at hr
        exact Option.noConfusion hr
      unfold stringsSplit at ht
      rw [List.mem_map] at ht
      obtain ⟨u, hu, rfl⟩ := ht
      have hm : '/' ∈ message.data := mem_of_mem_splitChars ' ' '/' message.data u hu hslash
      rw [← Bool.not_eq_true, stringsContains_slash_iff] at hno
      exact hno hm

/-- C20 on the message `pod created`, which contains no `/`: the result is the empty map. -/
theorem AnnotationsFromMessage_keys_witness :
    ∃ annotations, AnnotationsFromMessage "pod created" = some annotations
      ∧ annotations = StringMap.empty :=
  (AnnotationsFromMessage_keys "pod created").imp (fun _ h => ⟨h.1, h.2.2 (by decide)⟩)

/-! ## Annotations: repeated keys, absent keys, totality -/

theorem annotate_apply (annotations : StringMap) (t key : String) :
    (annotate annotations t) key =
      match annotationOf t with
      | some (k, v) => if k = key then some v else annotations key
      | none => annotations key := by
  unfold annotate
  cases h : annotationOf t with
  | none => rfl
  | some p =>
    obtain ⟨k, v⟩ := p
    by_cases hk : k = key
    · subst hk; simp [StringMap.set]
    · have hk' : ¬ key = k := fun e => hk e.symm
      simp [StringMap.set, hk, hk']

theorem valuesOf_cons (key t : String) (ts : List String) :
    valuesOf key (t :: ts) =
      match annotationOf t with
      | some (k, v) => if k = key then v :: valuesOf key ts else valuesOf key ts
      | none => valuesOf key ts := by
  unfold valuesOf
  cases h : annotationOf t with
  | none => simp [List.filterMap_cons, h]
  | some p =>
    obtain ⟨k, v⟩ := p
    by_cases hk : k = key <;> simp [List.filterMap_cons, h, hk]

/-- The value under a key after a run of tokens is the value given by the last token with
that key, and the value before the run when no token has the key. -/
theorem foldl_annotate_last (key : String) (tokens : List String) :
    ∀ annotations : StringMap,
      (tokens.foldl annotate annotations) key =
        match (valuesOf key tokens).getLast? with
        | some v => some v
        | none => annotations key := by
  induction tokens with
  | nil => intro annotations; rfl
  | cons t ts ih =>
    intro annotations
    rw [List.foldl_cons, ih, annotate_apply, valuesOf_cons]
    cases h : annotationOf t with
    | none => rfl
    | some p =>
      obtain ⟨k, v⟩ := p
      by_cases hk : k = key
      · simp only [hk, if_true]
        cases hl : valuesOf key ts with
        | nil => rfl
        | cons w ws =>
          rw [List.getLast?_cons_cons]
          cases hg : (w :: ws).getLast? with
          | none => simp at hg
          | some x => rfl
      · simp only [hk, if_false]

/-- C21: last token wins: the value that `AnnotationsFromMessage` stores under a key is the
value of the last token, in message order, that has this key (and the key is absent when no
token has it); so `ReasonFrom("reason/A x reason/B")` is `B`. -/
theorem AnnotationsFromMessage_last_token_wins (message key : String) :
    (∃ annotations, AnnotationsFromMessage message = some annotations
        ∧ annotations key = (valuesOf key (stringsSplit message ' ')).getLast?)
      ∧ ReasonFrom "reason/A x reason/B" = some "B" := by
  refine ⟨⟨_, AnnotationsFromMessage_eq message, ?_⟩, by decide⟩
  rw [foldl_annotate_last]
  cases (valuesOf key (stringsSplit message ' ')).getLast? <;> rfl

theorem eq_append_of_cutChars (sep : Char) :
    ∀ (l k v : List Char), cutChars sep l = some (k, v) → l = k ++ sep :: v := by
  intro l
  induction l with
  | nil => intro k v h; simp [cutChars] at h
  | cons c cs ih =>
    intro k v h
    unfold cutChars at h
    by_cases hc : c = sep
    · simp only [hc, if_true, Option.some.injEq, Prod.mk.injEq] at h
      simp [hc, ← h.1, ← h.2]
    · simp only [hc, if_false] at h
      cases hcut : cutChars sep cs with
      | none => simp [hcut] at h
      | some q =>
        obtain ⟨k', v'⟩ := q
        simp only [hcut, Option.some.injEq, Prod.mk.injEq] at h
        rw [← h.1, ← h.2, List.cons_append, ← ih k' v' hcut]

/-- A token gives its key a value only if it begins with the key followed by `/`. -/
theorem prefix_of_stringsCut (t key r : String) (h : stringsCut t '/' = some (key, r)) :
    (key ++ "/").data <+: t.data := by
  unfold stringsCut at h
  cases hc : cutChars '/' t.data with
  | none => simp [hc] at h
  | some p =>
    obtain ⟨k, v⟩ := p
    simp only [hc, Option.some.injEq, Prod.mk.injEq] at h
    rw [eq_append_of_cutChars '/' t.data k v hc, ← h.1]
    exact ⟨v, by simp [String.data_append]⟩

/-- C23: absent annotation: for a message with no space-separated token beginning with
`phase/`, `PhaseFrom` returns the empty string, and for a message with no token beginning
with `reason/`, `ReasonFrom` returns the empty string. -/
theorem PhaseFrom_ReasonFrom_absent (message : String) :
    ((∀ t ∈ stringsSplit message ' ', ¬ "phase/".data <+: t.data) → PhaseFrom message = some "")
      ∧ ((∀ t ∈ stringsSplit message ' ', ¬ "reason/".data <+: t.data) →
          ReasonFrom message = some "") := by
  have main : ∀ key : String,
      (∀ t ∈ stringsSplit message ' ', ¬ (key ++ "/").data <+: t.data) →
        ((stringsSplit message ' ').foldl annotate StringMap.empty) key = none := by
    intro key h
    by_contra hne
    rcases (foldl_annotate_key_iff key _ _).1 hne with h0 | ⟨t, ht, r, hr⟩
    · exact h0 rfl
    · exact h t ht (prefix_of_stringsCut t key r hr)
  constructor
  · intro h
    simp [PhaseFrom, AnnotationsFromMessage_eq, StringMap.index, main "phase" h]
  · intro h
    simp [ReasonFrom, AnnotationsFromMessage_eq, StringMap.index, main "reason" h]

/-- C23 on the message `reason/Created pod created`, which has no token beginning with
`phase/`. -/
theorem PhaseFrom_ReasonFrom_absent_witness :
    PhaseFrom "reason/Created pod created" = some "" :=
  (PhaseFrom_ReasonFrom_absent "reason/Created pod created").1 (by decide)

theorem ReasonFrom_eq (message : String) :
    ReasonFrom message
      = some (((stringsSplit message ' ').foldl annotate StringMap.empty).index "reason") := by
  simp [ReasonFrom, AnnotationsFromMessage_eq]

theorem PhaseFrom_eq (message : String) :
    PhaseFrom message
      = some (((stringsSplit message ' ').foldl annotate StringMap.empty).index "phase") := by
  simp [PhaseFrom, AnnotationsFromMessage_eq]

/-- C25: the codec never fails: `AnnotationsFromMessage`, `ReasonFrom` and `PhaseFrom` return
for every message and the loop body returns for every token; the split of a token that
contains `/` has at least two pieces, so `annotationTokens[1]` is in range, also for the
tokens `/`, `a/`, `/b` and for the empty message. -/
theorem AnnotationsFromMessage_never_panics (message curr : String) (annotations : StringMap) :
    (∃ result, AnnotationsFromMessage message = some result)
      ∧ (∃ reason, ReasonFrom message = some reason)
      ∧ (∃ phase, PhaseFrom message = some phase)
      ∧ (∃ next, annotationsLoopBody annotations curr = some next)
      ∧ (stringsContains curr "/" = true → 2 ≤ (stringsSplit curr '/').length)
      ∧ (AnnotationsFromMessage "/").isSome = true
      ∧ (AnnotationsFromMessage "a/").isSome = true
      ∧ (AnnotationsFromMessage "/b").isSome = true
      ∧ (AnnotationsFromMessage "").isSome = true := by
  refine ⟨⟨_, AnnotationsFromMessage_eq message⟩, ⟨_, ReasonFrom_eq message⟩,
    ⟨_, PhaseFrom_eq message⟩, ⟨_, annotationsLoopBody_eq annotations curr⟩, ?_,
    by decide, by decide, by decide, by decide⟩
  intro hc
  cases h : stringsCut curr '/' with
  | none =>
    rw [stringsContains_slash_iff] at hc
    exact absurd hc ((stringsCut_eq_none_iff curr).1 h)
  | some p =>
    obtain ⟨key, remainder⟩ := p
    obtain ⟨ts, hts⟩ := stringsSplit_head remainder
    rw [stringsSplit_of_cut curr key remainder h, hts]
    simp

/-- C25 on the token `/`: its split has the two pieces that the loop reads. -/
theorem AnnotationsFromMessage_never_panics_witness :
    2 ≤ (stringsSplit "/" '/').length :=
  (AnnotationsFromMessage_never_panics "/" "/" StringMap.empty).2.2.2.2.1 (by decide)

/-! ## Reasoned messages -/

theorem intercalate_go_eq (sep : String) :
    ∀ (l : List String) (acc : String),
      String.intercalate.go acc sep l =
        match l with
        | [] => acc
        | a :: rest => acc ++ sep ++ stringsJoin (a :: rest) sep := by
  intro l
  induction l with
  | nil => intro acc; rfl
  | cons a rest ih =>
    intro acc
    rw [String.intercalate.go, ih]
    cases rest with
    | nil => rfl
    | cons b rest' =>
      simp only [stringsJoin]
      apply String.ext
      simp [String.data_append]

/-- Go `strings.Join` is the library's `intercalate`. -/
theorem stringsJoin_eq_intercalate (sep : String) (l : List String) :
    stringsJoin l sep = sep.intercalate l := by
  cases l with
  | nil => rfl
  | cons a rest =>
    rw [String.intercalate, intercalate_go_eq]
    cases rest with
    | nil => rfl
    | cons b rest' => rfl

/-- C24: `ReasonedMessage(reason, parts...)` is `"reason/" + reason + " "` followed by the
parts joined with `"; "`; with a single part `p` it is `reason/<reason> p`, and with no parts
it is `reason/<reason> ` with the trailing space. -/
theorem ReasonedMessage_format (reason p : String) (parts : List String) :
    ReasonedMessage reason parts = "reason/" ++ reason ++ " " ++ "; ".intercalate parts
      ∧ ReasonedMessage reason [p] = "reason/" ++ reason ++ " " ++ p
      ∧ ReasonedMessage reason [] = "reason/" ++ reason ++ " "
      ∧ ReasonedMessage "Created" ["pod created", "on node-1"]
          = "reason/Created pod created; on node-1" := by
  refine ⟨?_, rfl, ?_, by decide⟩
  · rw [ReasonedMessage, stringsJoin_eq_intercalate]
  · apply String.ext
    simp [ReasonedMessage, stringsJoin, String.data_append]

/-! ## The tokens of a reasoned message -/

theorem splitChars_append_sep_append (sep : Char) (y : List Char) :
    ∀ x : List Char, splitChars sep (x ++ sep :: y) = splitChars sep x ++ splitChars sep y := by
  intro x
  induction x with
  | nil => simp [splitChars]
  | cons c cs ih =>
    by_cases hc : c = sep
    · simp [splitChars, hc, ih]
    · cases hs : splitChars sep cs with
      | nil => exact absurd hs (splitChars_ne_nil sep cs)
      | cons t ts =>
        rw [hs] at ih
        simp [splitChars, hc, ih, hs]

/-- Appending a character that is not the separator extends the last piece. -/
theorem splitChars_concat (sep c : Char) (hc : c ≠ sep) :
    ∀ x : List Char, ∃ pieces last,
      splitChars sep x = pieces ++ [last]
        ∧ splitChars sep (x ++ [c]) = pieces ++ [last ++ [c]] := by
  intro x
  induction x with
  | nil => exact ⟨[], [], by simp [splitChars], by simp [splitChars, hc]⟩
  | cons a as ih =>
    obtain ⟨pieces, last, h1, h2⟩ := ih
    by_cases ha : a = sep
    · exact ⟨[] :: pieces, last, by simp [splitChars, ha, h1], by simp [splitChars, ha, h2]⟩
    · cases pieces with
      | nil =>
        exact ⟨[], a :: last, by simp [splitChars, ha, h1],
          by simp [splitChars, ha] at h2 ⊢; simp [h2]⟩
      | cons q qs =>
        exact ⟨(a :: q) :: qs, last, by simp [splitChars, ha, h1],
          by simp [splitChars, ha] at h2 ⊢; simp [h2]⟩

theorem mem_splitChars_concat (sep c : Char) (hc : c ≠ sep) (x t : List Char)
    (ht : t ∈ splitChars sep (x ++ [c])) :
    ∃ u ∈ splitChars sep x, t = u ∨ t = u ++ [c] := by
  obtain ⟨pieces, last, h1, h2⟩ := splitChars_concat sep c hc x
  rw [h2, List.mem_append, List.mem_singleton] at ht
  rcases ht with ht | ht
  · exact ⟨t, by rw [h1]; exact List.mem_append_left _ ht, Or.inl rfl⟩
  · exact ⟨last, by rw [h1]; simp, Or.inr ht⟩

/-- A token of the parts joined with `"; "` is empty, or a token of a part, or a token of a
part followed by `;`. -/
theorem mem_splitChars_stringsJoin :
    ∀ (parts : List String) (t : List Char),
      t ∈ splitChars ' ' (stringsJoin parts "; ").data →
        t = [] ∨ ∃ p ∈ parts, ∃ u ∈ splitChars ' ' p.data, t = u ∨ t = u ++ [';'] := by
  intro parts
  induction parts with
  | nil =>
    intro t ht
    simp [stringsJoin, splitChars] at ht
    exact Or.inl ht
  | cons a rest ih =>
    intro t ht
    cases rest with
    | nil =>
      exact Or.inr ⟨a, List.mem_singleton.2 rfl, t, ht, Or.inl rfl⟩
    | cons b rest' =>
      have e : (stringsJoin (a :: b :: rest') "; ").data
          = (a.data ++ [';']) ++ ' ' :: (stringsJoin (b :: rest') "; ").data := by
        simp [stringsJoin, String.data_append]
      rw [e, splitChars_append_sep_append, List.mem_append] at ht
      rcases ht with ht | ht
      · obtain ⟨u, hu, htu⟩ := mem_splitChars_concat ' ' ';' (by decide) a.data t ht
        exact Or.inr ⟨a, List.mem_cons_self _ _, u, hu, htu⟩
      · rcases ih t ht with h | ⟨p, hp, u, hu, htu⟩
        · exact Or.inl h
        · exact Or.inr ⟨p, List.mem_cons_of_mem _ hp, u, hu, htu⟩

theorem beforeSlash_of_no_slash (s : String) (h : '/' ∉ s.data) : beforeSlash s = s := by
  simp [beforeSlash, (stringsCut_eq_none_iff s).2 h]

/-- C22: reason round trip: for every reason that contains no space and no `/`, and every list
of message parts none of which contains a space-separated token beginning with `reason/`,
`ReasonFrom(ReasonedMessage(r, parts...)) == r`; and
`ReasonFrom("reason/Created pod created") == "Created"`. -/
theorem ReasonFrom_ReasonedMessage (reason : String) (parts : List String)
    (hspace : ' ' ∉ reason.data) (hslash : '/' ∉ reason.data)
    (hparts : ∀ p ∈ parts, ∀ t ∈ stringsSplit p ' ', ¬ "reason/".data <+: t.data) :
    ReasonFrom (ReasonedMessage reason parts) = some reason
      ∧ ReasonFrom "reason/Created pod created" = some "Created" := by
  refine ⟨?_, by decide⟩
  have e : ReasonedMessage reason parts
      = ("reason" ++ "/" ++ reason) ++ " " ++ stringsJoin parts "; " := by
    apply String.ext
    simp [ReasonedMessage, String.data_append]
  have hlater : ∀ t ∈ stringsSplit (stringsJoin parts "; ") ' ',
      ∀ r, stringsCut t '/' ≠ some ("reason", r) := by
    intro t ht r hr
    have hpre : "reason/".data <+: t.data := prefix_of_stringsCut t "reason" r hr
    unfold stringsSplit at ht
    rw [List.mem_map] at ht
    obtain ⟨l, hl, rfl⟩ := ht
    rcases mem_splitChars_stringsJoin parts l hl with h | ⟨p, hp, u, hu, h | h⟩
    · rw [show (String.mk l).data = l from rfl, h] at hpre
      exact absurd (List.prefix_nil.1 hpre) (by decide)
    · apply hparts p hp (String.mk u)
      · exact List.mem_map.2 ⟨u, hu, rfl⟩
      · rw [← h]; exact hpre
    · rw [show (String.mk l).data = l from rfl, h, List.prefix_concat_iff] at hpre
      rcases hpre with h1 | h1
      · have h2 := congrArg List.getLast? h1
        rw [List.getLast?_concat] at h2
        exact absurd h2 (by decide)
      · exact hparts p hp (String.mk u) (List.mem_map.2 ⟨u, hu, rfl⟩) h1
  rw [ReasonFrom_eq, e,
    stringsSplit_token_space _ _ (not_mem_key_value _ _ _ (by decide) (by decide) hspace),
    List.foldl_cons, StringMap.index, foldl_annotate_other_keys "reason" _ hlater,
    annotate_of_cut _ _ _ _ (stringsCut_key_value "reason" reason (by decide)),
    beforeSlash_of_no_slash reason hslash]
  simp [StringMap.set]

/-- C22 for the reason `Created` and the parts `pod created` and `on node-1`. -/
theorem ReasonFrom_ReasonedMessage_witness :
    ReasonFrom (ReasonedMessage "Created" ["pod created", "on node-1"]) = some "Created" :=
  (ReasonFrom_ReasonedMessage "Created" ["pod created", "on node-1"] (by decide) (by decide)
    (by decide)).1

/-! ## Locators: the non-unique form, token order, the wire format -/

theorem not_mem_of_mem_splitChars (sep : Char) :
    ∀ (l t : List Char), t ∈ splitChars sep l → sep ∉ t := by
  intro l
  induction l with
  | nil =>
    intro t ht
    simp [splitChars] at ht
    simp [ht]
  | cons c cs ih =>
    intro t ht
    unfold splitChars at ht
    by_cases hc : c = sep
    · simp only [hc, if_true, List.mem_cons] at ht
      rcases ht with ht | ht
      · simp [ht]
      · exact ih t ht
    · simp only [hc, if_false] at ht
      cases hs : splitChars sep cs with
      | nil => exact absurd hs (splitChars_ne_nil sep cs)
      | cons u us =>
        rw [hs] at ht
        simp only [List.mem_cons] at ht
        rcases ht with ht | ht
        · have hu : sep ∉ u := ih u (by rw [hs]; exact List.mem_cons_self _ _)
          rw [ht]
          intro hm
          rcases List.mem_cons.1 hm with h | h
          · exact hc h.symm
          · exact hu h
        · exact ih t (by rw [hs]; exact List.mem_cons_of_mem _ ht)

theorem locatorPartsStep_spaceFree (parts : StringMap) (t : String) (ht : ' ' ∉ t.data)
    (h : ∀ k v, parts k = some v → ' ' ∉ v.data) :
    ∀ k v, locatorPartsStep parts t k = some v → ' ' ∉ v.data := by
  intro k v hk
  unfold locatorPartsStep at hk
  cases hc : stringsCut t '/' with
  | none =>
    rw [hc] at hk
    exact h k v hk
  | some p =>
    obtain ⟨k', v'⟩ := p
    rw [hc] at hk
    simp only [StringMap.set] at hk
    by_cases e : k = k'
    · simp only [e, if_true, Option.some.injEq] at hk
      unfold stringsCut at hc
      cases hcc : cutChars '/' t.data with
      | none => simp [hcc] at hc
      | some q =>
        obtain ⟨a, b⟩ := q
        simp only [hcc, Option.some.injEq, Prod.mk.injEq] at hc
        have ht' := eq_append_of_cutChars '/' t.data a b hcc
        rw [← hk, ← hc.2]
        intro hm
        apply ht
        rw [ht']
        exact List.mem_append_right _ (List.mem_cons_of_mem _ hm)
    · simp only [e, if_false] at hk
      exact h k v hk

theorem foldl_locatorPartsStep_spaceFree (tokens : List String)
    (ht : ∀ t ∈ tokens, ' ' ∉ t.data) :
    ∀ parts : StringMap, (∀ k v, parts k = some v → ' ' ∉ v.data) →
      ∀ k v, (tokens.foldl locatorPartsStep parts) k = some v → ' ' ∉ v.data := by
  induction tokens with
  | nil => intro parts h; exact h
  | cons t ts ih =>
    intro parts h
    rw [List.foldl_cons]
    exact ih (fun u hu => ht u (List.mem_cons_of_mem _ hu)) _
      (locatorPartsStep_spaceFree parts t (ht t (List.mem_cons_self _ _)) h)

/-- No decoded value contains a space. -/
theorem LocatorParts_index_spaceFree (l k : String) : ' ' ∉ ((LocatorParts l).index k).data := by
  unfold StringMap.index
  cases h : LocatorParts l k with
  | none => simp
  | some v =>
    refine foldl_locatorPartsStep_spaceFree (stringsSplit l ' ') ?_ StringMap.empty
      (fun k v hk => by simp [StringMap.empty] at hk) k v h
    intro t ht
    unfold stringsSplit at ht
    rw [List.mem_map] at ht
    obtain ⟨u, hu, rfl⟩ := ht
    exact not_mem_of_mem_splitChars ' ' l.data u hu

/-- The non-unique locator is `ns/<namespace> pod/<name>`, of two tokens. -/
theorem NonUniquePodLocatorFrom_tokens (l : String) :
    stringsSplit (NonUniquePodLocatorFrom l) ' '
      = ["ns/" ++ NamespaceFrom (LocatorParts l), "pod/" ++ (LocatorParts l).index "pod"] := by
  have e : NonUniquePodLocatorFrom l
      = ("ns" ++ "/" ++ NamespaceFrom (LocatorParts l)) ++ " "
          ++ ("pod" ++ "/" ++ (LocatorParts l).index "pod") := by
    apply String.ext
    simp [NonUniquePodLocatorFrom, String.data_append]
  have e1 : "ns/" ++ NamespaceFrom (LocatorParts l)
      = "ns" ++ "/" ++ NamespaceFrom (LocatorParts l) := by
    apply String.ext; simp [String.data_append]
  have e2 : "pod/" ++ (LocatorParts l).index "pod"
      = "pod" ++ "/" ++ (LocatorParts l).index "pod" := by
    apply String.ext; simp [String.data_append]
  rw [e, e1, e2,
    stringsSplit_token_space _ _ (not_mem_key_value _ _ _ (by decide) (by decide)
      (show ' ' ∉ (NamespaceFrom (LocatorParts l)).data from
        LocatorParts_index_spaceFree l "ns")),
    stringsSplit_of_no_space _ (not_mem_key_value _ _ _ (by decide) (by decide)
      (LocatorParts_index_spaceFree l "pod"))]

/-- C26: for every locator, `NonUniquePodLocatorFrom` is `"ns/"`, the decoded namespace,
`" pod/"` and the decoded `pod` value, two tokens with no `uid`, `node` or `container` token;
for a pod reference `r` with space-free fields,
`NonUniquePodLocatorFrom(r.ToLocator())` is `"ns/" + r.Namespace + " pod/" + r.Name`. -/
theorem NonUniquePodLocatorFrom_format (l : String) (r : PodReference)
    (sns : ' ' ∉ r.Namespace.data) (sname : ' ' ∉ r.Name.data) (suid : ' ' ∉ r.UID.data) :
    NonUniquePodLocatorFrom l
        = "ns/" ++ NamespaceFrom (LocatorParts l) ++ " pod/" ++ (LocatorParts l).index "pod"
      ∧ stringsSplit (NonUniquePodLocatorFrom l) ' '
        = ["ns/" ++ NamespaceFrom (LocatorParts l), "pod/" ++ (LocatorParts l).index "pod"]
      ∧ NonUniquePodLocatorFrom r.ToLocator = "ns/" ++ r.Namespace ++ " pod/" ++ r.Name := by
  refine ⟨rfl, NonUniquePodLocatorFrom_tokens l, ?_⟩
  have i1 : ((StringMap.empty.set "ns" r.Namespace).set "pod" r.Name).set "uid" r.UID "ns"
      = some r.Namespace := by simp [StringMap.set]
  have i2 : ((StringMap.empty.set "ns" r.Namespace).set "pod" r.Name).set "uid" r.UID "pod"
      = some r.Name := by simp [StringMap.set]
  simp [NonUniquePodLocatorFrom, PodReference.ToLocator,
    LocatorParts_pod_encoding _ _ _ sns sname suid, NamespaceFrom, StringMap.index, i1, i2]

/-- C26 on the locator of the pod `etcd-0` in `openshift-etcd`. -/
theorem NonUniquePodLocatorFrom_format_witness :
    NonUniquePodLocatorFrom (PodReference.ToLocator
        { Namespace := "openshift-etcd", Name := "etcd-0", UID := "5f2c" })
      = "ns/" ++ "openshift-etcd" ++ " pod/" ++ "etcd-0" :=
  (NonUniquePodLocatorFrom_format "ns/a pod/b uid/c"
    { Namespace := "openshift-etcd", Name := "etcd-0", UID := "5f2c" }
    (by decide) (by decide) (by decide)).2.2

theorem locatorPartsStep_comm (z : StringMap) (x y : String)
    (h : x = y ∨ beforeSlash x ≠ beforeSlash y) :
    locatorPartsStep (locatorPartsStep z x) y = locatorPartsStep (locatorPartsStep z y) x := by
  rcases h with h | h
  · rw [h]
  · unfold locatorPartsStep
    unfold beforeSlash at h
    cases hx : stringsCut x '/' with
    | none => cases hy : stringsCut y '/' <;> simp
    | some p =>
      obtain ⟨k1, v1⟩ := p
      cases hy : stringsCut y '/' with
      | none => simp
      | some q =>
        obtain ⟨k2, v2⟩ := q
        simp only [hx, hy] at h
        funext k
        simp only [StringMap.set]
        by_cases e1 : k = k1 <;> by_cases e2 : k = k2
        · exact absurd (e1.symm.trans e2) h
        · simp [e1, h]
        · simp [e2, h.symm]
        · simp [e1, e2]

/-- C27: decoding is order-independent: two locators whose space-separated tokens are
permutations of each other, with pairwise distinct keys (the text before the first `/` of a
token), decode to the same parts, hence to the same `PodFrom` and `ContainerFrom`; so
`uid/u pod/p ns/n` decodes like `ns/n pod/p uid/u`. -/
theorem decoding_order_independent (l₁ l₂ : String)
    (hperm : (stringsSplit l₁ ' ').Perm (stringsSplit l₂ ' '))
    (hkeys : (stringsSplit l₁ ' ').Pairwise (fun t u => beforeSlash t ≠ beforeSlash u)) :
    LocatorParts l₁ = LocatorParts l₂ ∧ PodFrom l₁ = PodFrom l₂
      ∧ ContainerFrom l₁ = ContainerFrom l₂ := by
  have hp : LocatorParts l₁ = LocatorParts l₂ := by
    unfold LocatorParts
    refine List.Perm.foldl_eq' hperm (fun x hx y hy z => ?_) _
    apply locatorPartsStep_comm
    by_cases e : x = y
    · exact Or.inl e
    · exact Or.inr (List.Pairwise.forall (fun a b hab => Ne.symm hab) hkeys hx hy e)
  have hpod : PodFrom l₁ = PodFrom l₂ := by
    unfold PodFrom
    rw [hp]
  refine ⟨hp, hpod, ?_⟩
  unfold ContainerFrom
  rw [hp, hpod]

/-- C27 on the locators `uid/u pod/p ns/n` and `ns/n pod/p uid/u`. -/
theorem decoding_order_independent_witness :
    PodFrom "uid/u pod/p ns/n" = PodFrom "ns/n pod/p uid/u"
      ∧ ContainerFrom "uid/u pod/p ns/n" = ContainerFrom "ns/n pod/p uid/u" :=
  (decoding_order_independent "uid/u pod/p ns/n" "ns/n pod/p uid/u" (by decide)
    (by decide)).2

/-- C28: wire format: for every pod, `LocatePod(pod)` is
`ns/<Namespace> pod/<Name> node/<Spec.NodeName> uid/<UID>`, with single spaces and in this
order, and `LocatePodContainer(pod, c)` is `LocatePod(pod)` followed by ` container/` and
`c`. -/
theorem LocatePod_format (pod : Pod) (c : String) :
    LocatePod (some pod)
        = some ("ns/" ++ pod.Namespace ++ " pod/" ++ pod.Name ++ " node/" ++ pod.Spec.NodeName
            ++ " uid/" ++ pod.UID)
      ∧ (∀ locator, LocatePod (some pod) = some locator ↔
          LocatePodContainer (some pod) c = some (locator ++ " container/" ++ c))
      ∧ LocatePod (some { Namespace := "n", Name := "p", UID := "u", Spec := { NodeName := "w" } })
          = some "ns/n pod/p node/w uid/u"
      ∧ LocatePodContainer
            (some { Namespace := "n", Name := "p", UID := "u", Spec := { NodeName := "w" } }) "c"
          = some "ns/n pod/p node/w uid/u container/c" := by
  refine ⟨rfl, fun locator => ?_, by decide, by decide⟩
  simp only [LocatePod, LocatePodContainer, Option.some.injEq]
  constructor
  · intro h; rw [← h]
  · intro h
    have h' := congrArg String.data h
    simp only [String.data_append, List.append_assoc] at h'
    apply String.ext
    have h'' := List.append_cancel_right (by simpa [List.append_assoc] using h' :
      ("ns/" ++ pod.Namespace ++ " pod/" ++ pod.Name ++ " node/" ++ pod.Spec.NodeName
        ++ " uid/" ++ pod.UID).data ++ (" container/" ++ c).data
        = locator.data ++ (" container/" ++ c).data)
    exact h''

/-- C29: the four reason sets are pairwise disjoint: no string is a member of two of
`PodLifecycleTransitionReasons`, `ContainerLifecycleTransitionReasons`,
`ContainerReadinessTransitionReasons` and `KubeletReadinessCheckReasons`. -/
theorem reason_sets_disjoint (s : String) :
    ¬ (s ∈ PodLifecycleTransitionReasons ∧ s ∈ ContainerLifecycleTransitionReasons)
      ∧ ¬ (s ∈ PodLifecycleTransitionReasons ∧ s ∈ ContainerReadinessTransitionReasons)
      ∧ ¬ (s ∈ PodLifecycleTransitionReasons ∧ s ∈ KubeletReadinessCheckReasons)
      ∧ ¬ (s ∈ ContainerLifecycleTransitionReasons ∧ s ∈ ContainerReadinessTransitionReasons)
      ∧ ¬ (s ∈ ContainerLifecycleTransitionReasons ∧ s ∈ KubeletReadinessCheckReasons)
      ∧ ¬ (s ∈ ContainerReadinessTransitionReasons ∧ s ∈ KubeletReadinessCheckReasons) := by
  have d1 : ∀ x ∈ PodLifecycleTransitionReasons, x ∉ ContainerLifecycleTransitionReasons := by
    decide
  have d2 : ∀ x ∈ PodLifecycleTransitionReasons, x ∉ ContainerReadinessTransitionReasons := by
    decide
  have d3 : ∀ x ∈ PodLifecycleTransitionReasons, x ∉ KubeletReadinessCheckReasons := by
    decide
  have d4 : ∀ x ∈ ContainerLifecycleTransitionReasons,
      x ∉ ContainerReadinessTransitionReasons := by
    decide
  have d5 : ∀ x ∈ ContainerLifecycleTransitionReasons, x ∉ KubeletReadinessCheckReasons := by
    decide
  have d6 : ∀ x ∈ ContainerReadinessTransitionReasons, x ∉ KubeletReadinessCheckReasons := by
    decide
  exact ⟨fun h => d1 s h.1 h.2, fun h => d2 s h.1 h.2, fun h => d3 s h.1 h.2,
    fun h => d4 s h.1 h.2, fun h => d5 s h.1 h.2, fun h => d6 s h.1 h.2⟩

/-- C30, as stated, fails: the string `GracefulDeleteStarted` is not in the pod lifecycle
set; the member that `PodReasonGracefulDeleteStarted` names is the string `GracefulDelete`. -/
theorem PodLifecycle_GracefulDeleteStarted_counterexample :
    "GracefulDeleteStarted" ∉ PodLifecycleTransitionReasons
      ∧ "GracefulDelete" ∈ PodLifecycleTransitionReasons
      ∧ PodReasonGracefulDeleteStarted = "GracefulDelete" := by
  decide

/-- C30, amended: a string is in the pod lifecycle set iff it is one of `Created`,
`Scheduled`, `GracefulDelete`, `Deleted`; in the container lifecycle set iff it is one of
`ContainerWait`, `ContainerStart`, `ContainerExit`; in the container readiness set iff it is
`Ready` or `NotReady`; in the kubelet readiness-check set iff it is one of `ReadinessFailed`,
`ReadinessErrored`, `StartupProbeFailed`; the sets have 4, 3, 2 and 3 members. -/
theorem reason_sets_membership (s : String) :
    (s ∈ PodLifecycleTransitionReasons ↔
        s = "Created" ∨ s = "Scheduled" ∨ s = "GracefulDelete" ∨ s = "Deleted")
      ∧ (s ∈ ContainerLifecycleTransitionReasons ↔
        s = "ContainerWait" ∨ s = "ContainerStart" ∨ s = "ContainerExit")
      ∧ (s ∈ ContainerReadinessTransitionReasons ↔ s = "Ready" ∨ s = "NotReady")
      ∧ (s ∈ KubeletReadinessCheckReasons ↔
        s = "ReadinessFailed" ∨ s = "ReadinessErrored" ∨ s = "StartupProbeFailed")
      ∧ (PodLifecycleTransitionReasons.Nodup ∧ PodLifecycleTransitionReasons.length = 4)
      ∧ (ContainerLifecycleTransitionReasons.Nodup
        ∧ ContainerLifecycleTransitionReasons.length = 3)
      ∧ (ContainerReadinessTransitionReasons.Nodup
        ∧ ContainerReadinessTransitionReasons.length = 2)
      ∧ (KubeletReadinessCheckReasons.Nodup ∧ KubeletReadinessCheckReasons.length = 3) := by
  refine ⟨?_, ?_, ?_, ?_, by decide, by decide, by decide, by decide⟩
  · simp [PodLifecycleTransitionReasons, NewString, PodReasonCreated, PodReasonScheduled,
      PodReasonGracefulDeleteStarted, PodReasonDeleted]
  · simp [ContainerLifecycleTransitionReasons, NewString, ContainerReasonContainerWait,
      ContainerReasonContainerStart, ContainerReasonContainerExit]
  · simp [ContainerReadinessTransitionReasons, NewString, ContainerReasonReady,
      ContainerReasonNotReady]
  · simp [KubeletReadinessCheckReasons, NewString, ContainerReasonReadinessFailed,
      ContainerReasonReadinessErrored, ContainerReasonStartupProbeFailed]

/-! ## Reasons outside the four sets -/

/-- C31: the reasons `DeletedBeforeScheduling`, `DeletedAfterCompletion` and `ReusedPodIP` are
members of none of the four lifecycle and readiness sets. -/
theorem out_of_band_reasons_in_no_set :
    (PodReasonDeletedBeforeScheduling = "DeletedBeforeScheduling"
        ∧ PodReasonDeletedAfterCompletion = "DeletedAfterCompletion"
        ∧ PodIPReused = "ReusedPodIP")
      ∧ (PodReasonDeletedBeforeScheduling ∉ PodLifecycleTransitionReasons
        ∧ PodReasonDeletedBeforeScheduling ∉ ContainerLifecycleTransitionReasons
        ∧ PodReasonDeletedBeforeScheduling ∉ ContainerReadinessTransitionReasons
        ∧ PodReasonDeletedBeforeScheduling ∉ KubeletReadinessCheckReasons)
      ∧ (PodReasonDeletedAfterCompletion ∉ PodLifecycleTransitionReasons
        ∧ PodReasonDeletedAfterCompletion ∉ ContainerLifecycleTransitionReasons
        ∧ PodReasonDeletedAfterCompletion ∉ ContainerReadinessTransitionReasons
        ∧ PodReasonDeletedAfterCompletion ∉ KubeletReadinessCheckReasons)
      ∧ (PodIPReused ∉ PodLifecycleTransitionReasons
        ∧ PodIPReused ∉ ContainerLifecycleTransitionReasons
        ∧ PodIPReused ∉ ContainerReadinessTransitionReasons
        ∧ PodIPReused ∉ KubeletReadinessCheckReasons) := by
  decide

/-! ## `Less` as a comparison of keys -/

/-- The order of the keys, component by component. -/
theorem SortKey_lt_iff (g₁ g₂ : ℕ) (n₁ n₂ : String) (f₁ f₂ t₁ t₂ : ℤ) (m₁ m₂ : String) :
    (toLex (g₁, toLex (n₁, toLex (f₁, toLex (t₁, m₁)))) : SortKey)
        < toLex (g₂, toLex (n₂, toLex (f₂, toLex (t₂, m₂)))) ↔
      g₁ < g₂ ∨ (g₁ = g₂ ∧ (n₁ < n₂ ∨ (n₁ = n₂ ∧ (f₁ < f₂ ∨ (f₁ = f₂
        ∧ (t₁ < t₂ ∨ (t₁ = t₂ ∧ m₁ < m₂))))))) := by
  simp only [Prod.Lex.lt_iff]

/-- C33: `Less` is a lexicographic comparison of keys: with
`key(x) = (0, namespace(x.Locator), x.From, x.To, x.Message)` for a pod-constructed `x` and
`(1, "", x.From, x.To, x.Message)` otherwise, `Less(i, j)` is true if and only if the key of
`intervals[i]` is smaller than the key of `intervals[j]` and false otherwise; the two are
mutually incomparable exactly when their keys are equal. -/
theorem Less_iff_sortKey_lt (intervals : ByTimeWithNamespacedPods) (i j : Int)
    (a b : EventInterval)
    (hi : intervals.elemAt i = some a) (hj : intervals.elemAt j = some b) :
    (intervals.Less i j = some true ↔ sortKey a < sortKey b)
      ∧ (intervals.Less i j = some false ↔ ¬ sortKey a < sortKey b)
      ∧ ((intervals.Less i j = some false ∧ intervals.Less j i = some false) ↔
          sortKey a = sortKey b)
      ∧ sortKey a
          = (if stringsContains a.Message "constructed" = true
                ∧ stringsContains a.Locator "pod/" = true then
              toLex (0, toLex (NamespaceFromLocator a.Locator,
                toLex (a.From.nanos, toLex (a.To.nanos, a.Message))))
            else toLex (1, toLex ("", toLex (a.From.nanos, toLex (a.To.nanos, a.Message)))))
      ∧ (∀ s t : String, s < t ↔ stringLt s t = true) := by
  rw [Less_of_elemAt intervals i j a b hi hj, Less_of_elemAt intervals j i b a hj hi]
  simp only [Option.some_inj, lessIntervals_iff_sortKey_lt, lessIntervals_eq_false_iff, not_lt]
  refine ⟨trivial, trivial, ⟨fun h => le_antisymm h.2 h.1, fun e => ⟨le_of_eq e.symm,
    le_of_eq e⟩⟩, ?_, fun s t => (stringLt_iff_lt s t).symm⟩
  unfold sortKey isPodConstructed
  by_cases h1 : stringsContains a.Message "constructed" = true <;>
    by_cases h2 : stringsContains a.Locator "pod/" = true <;> simp [h1, h2]

/-- C33 on `scenarioInput`: `B` (index 1) has the key `(0, "a", 20, 20, ..)`, smaller than the
key `(0, "b", 30, 30, ..)` of `A` (index 0), and `Less(1, 0)` is true. -/
theorem Less_iff_sortKey_lt_witness :
    scenarioInput.Less 1 0 = some true ↔
      sortKey
          { Locator := "ns/a pod/p1", Message := "constructed/true", From := ⟨20⟩, To := ⟨20⟩ }
        < sortKey
          { Locator := "ns/b pod/p2", Message := "constructed/true", From := ⟨30⟩, To := ⟨30⟩ } :=
  (Less_iff_sortKey_lt scenarioInput 1 0
    { Locator := "ns/a pod/p1", Message := "constructed/true", From := ⟨20⟩, To := ⟨20⟩ }
    { Locator := "ns/b pod/p2", Message := "constructed/true", From := ⟨30⟩, To := ⟨30⟩ }
    (by decide) (by decide)).1

/-! ## The non-unique locator, decoded again -/

/-- The parts of a non-unique locator: the namespace and the `pod` value it was made of. -/
theorem LocatorParts_NonUniquePodLocatorFrom (l : String) :
    LocatorParts (NonUniquePodLocatorFrom l)
      = (StringMap.empty.set "ns" (NamespaceFrom (LocatorParts l))).set "pod"
          ((LocatorParts l).index "pod") := by
  have e1 : "ns/" ++ NamespaceFrom (LocatorParts l)
      = "ns" ++ "/" ++ NamespaceFrom (LocatorParts l) := by
    apply String.ext; simp [String.data_append]
  have e2 : "pod/" ++ (LocatorParts l).index "pod"
      = "pod" ++ "/" ++ (LocatorParts l).index "pod" := by
    apply String.ext; simp [String.data_append]
  rw [LocatorParts, NonUniquePodLocatorFrom_tokens, e1, e2]
  simp only [List.foldl_cons, List.foldl_nil]
  rw [locatorPartsStep_key_value _ _ _ (by decide), locatorPartsStep_key_value _ _ _ (by decide)]

/-- C36: a non-unique locator never decodes as a unique pod: for every locator,
`PodFrom(NonUniquePodLocatorFrom(l))` is the zero `PodReference` and
`ContainerFrom(NonUniquePodLocatorFrom(l))` the zero `ContainerReference`, the re-rendered
string having no `uid` token. -/
theorem NonUniquePodLocatorFrom_decodes_to_zero (l : String) :
    PodFrom (NonUniquePodLocatorFrom l) = PodReference.zero
      ∧ ContainerFrom (NonUniquePodLocatorFrom l) = ContainerReference.zero
      ∧ LocatorParts (NonUniquePodLocatorFrom l) "uid" = none := by
  have hu : LocatorParts (NonUniquePodLocatorFrom l) "uid" = none := by
    rw [LocatorParts_NonUniquePodLocatorFrom]
    simp [StringMap.set, StringMap.empty]
  have hc : LocatorParts (NonUniquePodLocatorFrom l) "container" = none := by
    rw [LocatorParts_NonUniquePodLocatorFrom]
    simp [StringMap.set, StringMap.empty]
  refine ⟨?_, ?_, hu⟩
  · rw [PodFrom_eq]
    simp [StringMap.index, hu]
  · rw [ContainerFrom_eq]
    simp [StringMap.index, hc]

/-- C37: `NonUniquePodLocatorFrom` is idempotent: applying it to its own result gives that
result again. -/
theorem NonUniquePodLocatorFrom_idempotent (l : String) :
    NonUniquePodLocatorFrom (NonUniquePodLocatorFrom l) = NonUniquePodLocatorFrom l := by
  have h : ∀ x : String, NonUniquePodLocatorFrom x
      = "ns/" ++ NamespaceFrom (LocatorParts x) ++ " pod/" ++ (LocatorParts x).index "pod" :=
    fun _ => rfl
  rw [h (NonUniquePodLocatorFrom l), LocatorParts_NonUniquePodLocatorFrom, h l]
  simp [NamespaceFrom, StringMap.index, StringMap.set]

/-! ## Round trips, exactly -/

/-- The fields of a decoded pod reference contain no space. -/
theorem PodFrom_spaceFree (l : String) :
    ' ' ∉ (PodFrom l).Namespace.data ∧ ' ' ∉ (PodFrom l).Name.data
      ∧ ' ' ∉ (PodFrom l).UID.data := by
  rw [PodFrom_eq]
  split
  · simp [PodReference.zero]
  · exact ⟨LocatorParts_index_spaceFree l "ns", LocatorParts_index_spaceFree l "pod",
      LocatorParts_index_spaceFree l "uid"⟩

/-- A decoded pod reference is the zero value or has three non-empty fields. -/
theorem PodFrom_zero_or_nonempty (l : String) :
    PodFrom l = PodReference.zero
      ∨ ((PodFrom l).Namespace ≠ "" ∧ (PodFrom l).Name ≠ "" ∧ (PodFrom l).UID ≠ "") := by
  rw [PodFrom_eq]
  split
  · exact Or.inl rfl
  · rename_i hz
    simp only [not_or] at hz
    exact Or.inr ⟨hz.1, hz.2.1, hz.2.2⟩

theorem ContainerFrom_zero_ToLocator :
    ContainerFrom ContainerReference.zero.ToLocator = ContainerReference.zero := by
  rw [ContainerFrom_eq]
  have e : ContainerReference.zero.ToLocator
      = "ns/" ++ "" ++ " pod/" ++ "" ++ " uid/" ++ "" ++ " container/" ++ "" := rfl
  rw [e, LocatorParts_container_encoding "" "" "" "" (by decide) (by decide) (by decide)
    (by decide)]
  simp [StringMap.index, StringMap.set]

/-- A decoded container reference is the zero value, or has the fields decoded from the
locator, all non-empty. -/
theorem ContainerFrom_zero_or_fields (l : String) (c : ContainerReference)
    (h : ContainerFrom l = c) :
    c = ContainerReference.zero
      ∨ (c.Pod = PodFrom l ∧ c.ContainerName = (LocatorParts l).index "container"
        ∧ (PodFrom l).UID ≠ "" ∧ (LocatorParts l).index "container" ≠ "") := by
  have he := ContainerFrom_eq l
  rw [h] at he
  by_cases hz : (LocatorParts l).index "container" = "" ∨ (PodFrom l).UID = ""
  · rw [if_pos hz] at he
    exact Or.inl he
  · rw [if_neg hz] at he
    simp only [not_or] at hz
    obtain ⟨cp, cn⟩ := c
    simp only [ContainerReference.mk.injEq] at he
    exact Or.inr ⟨he.1, he.2, hz.2, hz.1⟩

/-- C34: exact round-trip condition: for every `PodReference` whose namespace, name and UID
are non-empty and contain no space (they may contain `/`), `PodFrom(r.ToLocator()) == r`, and
for every `ContainerReference` that also has a non-empty, space-free container name,
`ContainerFrom(c.ToLocator()) == c`; apart from the zero values, these are the only
references that decode back to themselves. -/
theorem roundtrip_iff_spaceFree (r : PodReference) (c : ContainerReference) :
    (PodFrom r.ToLocator = r ↔
        (r = PodReference.zero
          ∨ (r.Namespace ≠ "" ∧ r.Name ≠ "" ∧ r.UID ≠ ""
            ∧ ' ' ∉ r.Namespace.data ∧ ' ' ∉ r.Name.data ∧ ' ' ∉ r.UID.data)))
      ∧ (ContainerFrom c.ToLocator = c ↔
        (c = ContainerReference.zero
          ∨ (c.Pod.Namespace ≠ "" ∧ c.Pod.Name ≠ "" ∧ c.Pod.UID ≠ "" ∧ c.ContainerName ≠ ""
            ∧ ' ' ∉ c.Pod.Namespace.data ∧ ' ' ∉ c.Pod.Name.data ∧ ' ' ∉ c.Pod.UID.data
            ∧ ' ' ∉ c.ContainerName.data))) := by
  constructor
  · constructor
    · intro h
      have hs := PodFrom_spaceFree r.ToLocator
      rcases PodFrom_zero_or_nonempty r.ToLocator with hz | hn
      · exact Or.inl (h.symm.trans hz)
      · rw [h] at hs hn
        exact Or.inr ⟨hn.1, hn.2.1, hn.2.2, hs.1, hs.2.1, hs.2.2⟩
    · rintro (hz | ⟨h1, h2, h3, h4, h5, h6⟩)
      · rw [hz]; decide
      · exact PodFrom_ToLocator_of_spaceFree r h1 h2 h3 h4 h5 h6
  · constructor
    · intro h
      rcases ContainerFrom_zero_or_fields c.ToLocator c h with hz | ⟨e1, e2, hu, hk⟩
      · exact Or.inl hz
      · have hs := PodFrom_spaceFree c.ToLocator
        have hn := PodFrom_fields_of_UID c.ToLocator hu
        have hc := LocatorParts_index_spaceFree c.ToLocator "container"
        rw [← e1] at hs hn hu
        rw [← e2] at hc hk
        exact Or.inr ⟨hn.1, hn.2, hu, hk, hs.1, hs.2.1, hs.2.2, hc⟩
    · rintro (hz | ⟨h1, h2, h3, h4, h5, h6, h7, h8⟩)
      · rw [hz]; exact ContainerFrom_zero_ToLocator
      · exact ContainerFrom_ToLocator_of_spaceFree c h1 h2 h3 h4 h5 h6 h7 h8

/-- C34 on references whose fields contain `/`: both decode back to themselves. -/
theorem roundtrip_iff_spaceFree_witness :
    PodFrom (PodReference.ToLocator { Namespace := "a/b", Name := "n/1", UID := "u/2" })
        = { Namespace := "a/b", Name := "n/1", UID := "u/2" }
      ∧ ContainerFrom (ContainerReference.ToLocator
          { Pod := { Namespace := "a/b", Name := "n/1", UID := "u/2" }, ContainerName := "c/3" })
        = { Pod := { Namespace := "a/b", Name := "n/1", UID := "u/2" }, ContainerName := "c/3" } :=
  ⟨(roundtrip_iff_spaceFree { Namespace := "a/b", Name := "n/1", UID := "u/2" }
      ContainerReference.zero).1.2
      (Or.inr ⟨by decide, by decide, by decide, by decide, by decide, by decide⟩),
    (roundtrip_iff_spaceFree PodReference.zero
      { Pod := { Namespace := "a/b", Name := "n/1", UID := "u/2" },
        ContainerName := "c/3" }).2.2
      (Or.inr ⟨by decide, by decide, by decide, by decide, by decide, by decide, by decide,
        by decide⟩)⟩

/-! ## The full locator -/

/-- The tokens of the locator of a pod decode to its four fields. -/
theorem LocatorParts_LocatePod_encoding (ns name node uid : String) (hns : ' ' ∉ ns.data)
    (hname : ' ' ∉ name.data) (hnode : ' ' ∉ node.data) (huid : ' ' ∉ uid.data) :
    LocatorParts ("ns/" ++ ns ++ " pod/" ++ name ++ " node/" ++ node ++ " uid/" ++ uid)
      = (((StringMap.empty.set "ns" ns).set "pod" name).set "node" node).set "uid" uid := by
  have e : "ns/" ++ ns ++ " pod/" ++ name ++ " node/" ++ node ++ " uid/" ++ uid
      = ("ns" ++ "/" ++ ns) ++ " " ++ (("pod" ++ "/" ++ name) ++ " "
          ++ (("node" ++ "/" ++ node) ++ " " ++ ("uid" ++ "/" ++ uid))) := by
    apply String.ext; simp [String.data_append]
  rw [e, LocatorParts,
    stringsSplit_token_space _ _ (not_mem_key_value _ _ _ (by decide) (by decide) hns),
    stringsSplit_token_space _ _ (not_mem_key_value _ _ _ (by decide) (by decide) hname),
    stringsSplit_token_space _ _ (not_mem_key_value _ _ _ (by decide) (by decide) hnode),
    stringsSplit_of_no_space _ (not_mem_key_value _ _ _ (by decide) (by decide) huid)]
  simp only [List.foldl_cons, List.foldl_nil]
  rw [locatorPartsStep_key_value _ _ _ (by decide), locatorPartsStep_key_value _ _ _ (by decide),
    locatorPartsStep_key_value _ _ _ (by decide), locatorPartsStep_key_value _ _ _ (by decide)]

/-- The tokens of the locator of a container decode to its five fields. -/
theorem LocatorParts_LocatePodContainer_encoding (ns name node uid c : String)
    (hns : ' ' ∉ ns.data) (hname : ' ' ∉ name.data) (hnode : ' ' ∉ node.data)
    (huid : ' ' ∉ uid.data) (hc : ' ' ∉ c.data) :
    LocatorParts ("ns/" ++ ns ++ " pod/" ++ name ++ " node/" ++ node ++ " uid/" ++ uid
        ++ " container/" ++ c)
      = ((((StringMap.empty.set "ns" ns).set "pod" name).set "node" node).set "uid" uid).set
          "container" c := by
  have e : "ns/" ++ ns ++ " pod/" ++ name ++ " node/" ++ node ++ " uid/" ++ uid
        ++ " container/" ++ c
      = ("ns" ++ "/" ++ ns) ++ " " ++ (("pod" ++ "/" ++ name) ++ " "
          ++ (("node" ++ "/" ++ node) ++ " " ++ (("uid" ++ "/" ++ uid) ++ " "
            ++ ("container" ++ "/" ++ c)))) := by
    apply String.ext; simp [String.data_append]
  rw [e, LocatorParts,
    stringsSplit_token_space _ _ (not_mem_key_value _ _ _ (by decide) (by decide) hns),
    stringsSplit_token_space _ _ (not_mem_key_value _ _ _ (by decide) (by decide) hname),
    stringsSplit_token_space _ _ (not_mem_key_value _ _ _ (by decide) (by decide) hnode),
    stringsSplit_token_space _ _ (not_mem_key_value _ _ _ (by decide) (by decide) huid),
    stringsSplit_of_no_space _ (not_mem_key_value _ _ _ (by decide) (by decide) hc)]
  simp only [List.foldl_cons, List.foldl_nil]
  rw [locatorPartsStep_key_value _ _ _ (by decide), locatorPartsStep_key_value _ _ _ (by decide),
    locatorPartsStep_key_value _ _ _ (by decide), locatorPartsStep_key_value _ _ _ (by decide),
    locatorPartsStep_key_value _ _ _ (by decide)]

/-- C35: the full locator decodes like the short encoding: for every pod whose namespace,
name and UID are non-empty and space-free and whose node name is space-free,
`PodFrom(LocatePod(pod))` is the reference `{Namespace, Name, UID}` of the pod, the `node`
token being ignored, and for every non-empty space-free container name `c`,
`ContainerFrom(LocatePodContainer(pod, c))` is `{Pod: PodFrom(LocatePod(pod)),
ContainerName: c}`. -/
theorem PodFrom_LocatePod (pod : Pod) (c : String)
    (hns : pod.Namespace ≠ "") (hname : pod.Name ≠ "") (huid : pod.UID ≠ "") (hc : c ≠ "")
    (sns : ' ' ∉ pod.Namespace.data) (sname : ' ' ∉ pod.Name.data)
    (snode : ' ' ∉ pod.Spec.NodeName.data) (suid : ' ' ∉ pod.UID.data)
    (sc : ' ' ∉ c.data) :
    ∃ locator containerLocator,
      LocatePod (some pod) = some locator
        ∧ LocatePodContainer (some pod) c = some containerLocator
        ∧ PodFrom locator = { Namespace := pod.Namespace, Name := pod.Name, UID := pod.UID }
        ∧ ContainerFrom containerLocator = { Pod := PodFrom locator, ContainerName := c } := by
  have h1 : pod.Namespace.length ≠ 0 := fun h => hns ((length_eq_zero_iff _).1 h)
  have h2 : pod.Name.length ≠ 0 := fun h => hname ((length_eq_zero_iff _).1 h)
  have h3 : pod.UID.length ≠ 0 := fun h => huid ((length_eq_zero_iff _).1 h)
  have h4 : c.length ≠ 0 := fun h => hc ((length_eq_zero_iff _).1 h)
  have hp : PodFrom ("ns/" ++ pod.Namespace ++ " pod/" ++ pod.Name ++ " node/"
      ++ pod.Spec.NodeName ++ " uid/" ++ pod.UID)
      = { Namespace := pod.Namespace, Name := pod.Name, UID := pod.UID } := by
    simp [PodFrom, LocatorParts_LocatePod_encoding _ _ _ _ sns sname snode suid,
      NamespaceFrom, StringMap.index, StringMap.set, h1, h2, h3]
  refine ⟨_, _, rfl, rfl, hp, ?_⟩
  rw [hp]
  simp [ContainerFrom, PodFrom,
    LocatorParts_LocatePodContainer_encoding _ _ _ _ _ sns sname snode suid sc,
    NamespaceFrom, StringMap.index, StringMap.set, h1, h2, h3, h4]

/-- C35 on `etcdPod`, the pod `etcd-0` of `openshift-etcd` on node `master-0`, and its
container `etcdctl`. -/
theorem PodFrom_LocatePod_witness :
    ∃ locator containerLocator,
      LocatePod (some etcdPod) = some locator
        ∧ LocatePodContainer (some etcdPod) "etcdctl" = some containerLocator
        ∧ PodFrom locator
          = { Namespace := etcdPod.Namespace, Name := etcdPod.Name, UID := etcdPod.UID }
        ∧ ContainerFrom containerLocator
          = { Pod := PodFrom locator, ContainerName := "etcdctl" } :=
  PodFrom_LocatePod etcdPod "etcdctl"
    (by decide) (by decide) (by decide) (by decide) (by decide) (by decide) (by decide)
    (by decide) (by decide)

/-! ## Annotations: the characters of keys and values -/

theorem cutChars_fst_not_mem (sep : Char) :
    ∀ (l k v : List Char), cutChars sep l = some (k, v) → sep ∉ k := by
  intro l
  induction l with
  | nil => intro k v h; simp [cutChars] at h
  | cons c cs ih =>
    intro k v h
    unfold cutChars at h
    by_cases hc : c = sep
    · simp only [hc, if_true, Option.some.injEq, Prod.mk.injEq] at h
      simp [← h.1]
    · simp only [hc, if_false] at h
      cases hcut : cutChars sep cs with
      | none => simp [hcut] at h
      | some q =>
        obtain ⟨k', v'⟩ := q
        simp only [hcut, Option.some.injEq, Prod.mk.injEq] at h
        rw [← h.1]
        intro hm
        rcases List.mem_cons.1 hm with e | e
        · exact hc e.symm
        · exact ih k' v' hcut e

/-- The two sides of a cut: the key has no `/`, and both are made of characters of the
token. -/
theorem stringsCut_parts (t k r : String) (h : stringsCut t '/' = some (k, r)) :
    '/' ∉ k.data ∧ (∀ c, c ∈ k.data → c ∈ t.data) ∧ (∀ c, c ∈ r.data → c ∈ t.data) := by
  unfold stringsCut at h
  cases hc : cutChars '/' t.data with
  | none => simp [hc] at h
  | some p =>
    obtain ⟨a, b⟩ := p
    simp only [hc, Option.some.injEq, Prod.mk.injEq] at h
    have e := eq_append_of_cutChars '/' t.data a b hc
    rw [← h.1, ← h.2, e]
    refine ⟨cutChars_fst_not_mem '/' t.data a b hc, fun c hm => List.mem_append_left _ hm,
      fun c hm => List.mem_append_right _ (List.mem_cons_of_mem _ hm)⟩

theorem beforeSlash_parts (s : String) :
    '/' ∉ (beforeSlash s).data ∧ ∀ c, c ∈ (beforeSlash s).data → c ∈ s.data := by
  unfold beforeSlash
  cases h : stringsCut s '/' with
  | none => exact ⟨(stringsCut_eq_none_iff s).1 h, fun c hm => hm⟩
  | some p =>
    obtain ⟨a, b⟩ := p
    have hp := stringsCut_parts s a b h
    exact ⟨hp.1, hp.2.1⟩

/-- The key and the value taken from a token have no `/` and are made of characters of the
token. -/
theorem annotationOf_parts (t k v : String) (h : annotationOf t = some (k, v)) :
    '/' ∉ k.data ∧ '/' ∉ v.data ∧ (∀ c, c ∈ k.data → c ∈ t.data)
      ∧ (∀ c, c ∈ v.data → c ∈ t.data) := by
  unfold annotationOf at h
  cases hc : stringsCut t '/' with
  | none => simp [hc] at h
  | some p =>
    obtain ⟨a, b⟩ := p
    simp only [hc, Option.some.injEq, Prod.mk.injEq] at h
    have hp := stringsCut_parts t a b hc
    have hb := beforeSlash_parts b
    rw [← h.1, ← h.2]
    exact ⟨hp.1, hb.1, hp.2.1, fun c hm => hp.2.2 c (hb.2 c hm)⟩

theorem foldl_annotate_clean (tokens : List String) (ht : ∀ t ∈ tokens, ' ' ∉ t.data) :
    ∀ annotations : StringMap,
      (∀ k v, annotations k = some v →
        ' ' ∉ k.data ∧ '/' ∉ k.data ∧ ' ' ∉ v.data ∧ '/' ∉ v.data) →
      ∀ k v, (tokens.foldl annotate annotations) k = some v →
        ' ' ∉ k.data ∧ '/' ∉ k.data ∧ ' ' ∉ v.data ∧ '/' ∉ v.data := by
  induction tokens with
  | nil => intro annotations h; exact h
  | cons t ts ih =>
    intro annotations h
    rw [List.foldl_cons]
    refine ih (fun u hu => ht u (List.mem_cons_of_mem _ hu)) _ (fun k v hk => ?_)
    rw [annotate_apply] at hk
    have hts : ' ' ∉ t.data := ht t (List.mem_cons_self _ _)
    cases ha : annotationOf t with
    | none =>
      rw [ha] at hk
      exact h k v hk
    | some p =>
      obtain ⟨k', v'⟩ := p
      rw [ha] at hk
      have hp := annotationOf_parts t k' v' ha
      by_cases e : k' = k
      · simp only [e, if_true, Option.some.injEq] at hk
        rw [← e, ← hk]
        exact ⟨fun hm => hts (hp.2.2.1 _ hm), hp.1, fun hm => hts (hp.2.2.2 _ hm), hp.2.1⟩
      · simp only [e, if_false] at hk
        exact h k v hk

theorem stringsSplit_spaceFree (message t : String) (ht : t ∈ stringsSplit message ' ') :
    ' ' ∉ t.data := by
  unfold stringsSplit at ht
  rw [List.mem_map] at ht
  obtain ⟨u, hu, rfl⟩ := ht
  exact not_mem_of_mem_splitChars ' ' message.data u hu

/-- C38: for every message, every key and every value of `AnnotationsFromMessage(message)`
contains neither a space nor a `/`, so `ReasonFrom` and `PhaseFrom` never return a string
with a space or a `/`. -/
theorem AnnotationsFromMessage_no_space_no_slash (message : String) :
    ∃ annotations, AnnotationsFromMessage message = some annotations
      ∧ (∀ k v, annotations k = some v →
          ' ' ∉ k.data ∧ '/' ∉ k.data ∧ ' ' ∉ v.data ∧ '/' ∉ v.data)
      ∧ ' ' ∉ (annotations.index "reason").data ∧ '/' ∉ (annotations.index "reason").data
      ∧ ' ' ∉ (annotations.index "phase").data ∧ '/' ∉ (annotations.index "phase").data
      ∧ ReasonFrom message = some (annotations.index "reason")
      ∧ PhaseFrom message = some (annotations.index "phase") := by
  have hclean := foldl_annotate_clean (stringsSplit message ' ')
    (fun t ht => stringsSplit_spaceFree message t ht) StringMap.empty
    (fun k v hk => by simp [StringMap.empty] at hk)
  have hidx : ∀ key : String,
      ' ' ∉ (((stringsSplit message ' ').foldl annotate StringMap.empty).index key).data
        ∧ '/' ∉ (((stringsSplit message ' ').foldl annotate StringMap.empty).index key).data := by
    intro key
    unfold StringMap.index
    cases h : ((stringsSplit message ' ').foldl annotate StringMap.empty) key with
    | none => simp
    | some v => exact ⟨(hclean key v h).2.2.1, (hclean key v h).2.2.2⟩
  exact ⟨_, AnnotationsFromMessage_eq message, hclean, (hidx "reason").1, (hidx "reason").2,
    (hidx "phase").1, (hidx "phase").2, ReasonFrom_eq message, PhaseFrom_eq message⟩

/-- C38 on the message `reason/Created pod created`: the reason returned has no space and no
`/`. -/
theorem AnnotationsFromMessage_no_space_no_slash_witness :
    ∃ reason, ReasonFrom "reason/Created pod created" = some reason
      ∧ ' ' ∉ reason.data ∧ '/' ∉ reason.data :=
  match AnnotationsFromMessage_no_space_no_slash "reason/Created pod created" with
  | ⟨annotations, _, _, h1, h2, _, _, h3, _⟩ => ⟨annotations.index "reason", h3, h1, h2⟩

/-! ## Annotations: what separates tokens -/

/-- The value under the key of a token that no later token overrides. -/
theorem foldl_annotate_token (earlier later : List String) (tok key remainder : String)
    (hcut : stringsCut tok '/' = some (key, remainder))
    (hlater : ∀ t ∈ later, ∀ r, stringsCut t '/' ≠ some (key, r)) :
    ((earlier ++ tok :: later).foldl annotate StringMap.empty) key
      = some (beforeSlash remainder) := by
  rw [List.foldl_append, List.foldl_cons, foldl_annotate_other_keys key later hlater,
    annotate_of_cut _ _ _ _ hcut]
  simp [StringMap.set]

/-- C32, as stated, fails: in `reason/Created<tab>pod created` the tab does not end the token,
and the reason returned is `Created<tab>pod`, not `Created`. -/
theorem ReasonFrom_tab_counterexample :
    ReasonFrom "reason/Created\tpod created" = some "Created\tpod"
      ∧ ReasonFrom "reason/Created\tpod created" ≠ some "Created"
      ∧ stringsSplit "reason/Created\tpod created" ' ' = ["reason/Created\tpod", "created"] := by
  decide

/-- Joining the pieces of a split with the separator gives the text back. -/
theorem stringsJoin_splitChars :
    ∀ l : List Char, (stringsJoin ((splitChars ' ' l).map String.mk) " ").data = l := by
  intro l
  induction l with
  | nil => rfl
  | cons x xs ih =>
    cases hs : splitChars ' ' xs with
    | nil => exact absurd hs (splitChars_ne_nil ' ' xs)
    | cons t ts =>
      rw [hs] at ih
      by_cases hx : x = ' '
      · have e : splitChars ' ' (x :: xs) = [] :: t :: ts := by
          simp [splitChars, hx, hs]
        rw [e]
        simp only [List.map_cons, stringsJoin, String.data_append] at ih ⊢
        rw [ih, hx]
        rfl
      · have e : splitChars ' ' (x :: xs) = (x :: t) :: ts := by
          simp [splitChars, hx, hs]
        rw [e]
        cases ts with
        | nil =>
          simp only [List.map_cons, List.map_nil, stringsJoin] at ih ⊢
          rw [← ih]
        | cons u us =>
          simp only [List.map_cons, stringsJoin, String.data_append] at ih ⊢
          rw [← ih]
          rfl

/-- The tokens of a message, joined with single spaces, are the message. -/
theorem stringsJoin_stringsSplit (message : String) :
    stringsJoin (stringsSplit message ' ') " " = message :=
  String.ext (stringsJoin_splitChars message.data)

/-- C32, amended: `AnnotationsFromMessage` tokenises on the space character only: the tokens
of every message are its space-free pieces, which joined with single spaces give the message
back, so a tab or a newline never ends a token.  For every message and every token of it, at
any position, of the form `key/value`, a tab or a newline, and further text `tail`, the value
stored under `key` is the text between the first `/` of the token and its next `/`, which is
`value`, the tab or newline and `tail` when these contain no `/`, provided no later token has
the same key. -/
theorem AnnotationsFromMessage_splits_on_space_only (message : String)
    (earlier later : List String) (key value tail : String) (c : Char)
    (hc : c = '\t' ∨ c = '\n')
    (htok : stringsSplit message ' '
      = earlier ++ (key ++ "/" ++ value ++ String.singleton c ++ tail) :: later)
    (hkey : '/' ∉ key.data)
    (hlater : ∀ t ∈ later, ∀ r, stringsCut t '/' ≠ some (key, r)) :
    (stringsJoin (stringsSplit message ' ') " " = message
        ∧ (∀ t ∈ stringsSplit message ' ', ' ' ∉ t.data)
        ∧ c ∈ (key ++ "/" ++ value ++ String.singleton c ++ tail).data)
      ∧ ∃ annotations, AnnotationsFromMessage message = some annotations
        ∧ annotations key = some (beforeSlash (value ++ String.singleton c ++ tail))
        ∧ ('/' ∉ value.data → '/' ∉ tail.data →
            annotations key = some (value ++ String.singleton c ++ tail)) := by
  have hcl : c ≠ '/' := by rcases hc with h | h <;> rw [h] <;> decide
  have e : key ++ "/" ++ value ++ String.singleton c ++ tail
      = key ++ "/" ++ (value ++ String.singleton c ++ tail) := by
    apply String.ext
    simp [String.data_append]
  have hval : ((stringsSplit message ' ').foldl annotate StringMap.empty) key
      = some (beforeSlash (value ++ String.singleton c ++ tail)) := by
    rw [htok, e]
    exact foldl_annotate_token earlier later _ key _ (stringsCut_key_value _ _ hkey) hlater
  refine ⟨⟨stringsJoin_stringsSplit message, fun t ht => stringsSplit_spaceFree message t ht,
    by simp [String.data_append, String.singleton]⟩,
    _, AnnotationsFromMessage_eq message, hval, fun hvalue htail => ?_⟩
  have hv2 : '/' ∉ (value ++ String.singleton c ++ tail).data := by
    simp [String.data_append, String.singleton, hvalue, htail, Ne.symm hcl]
  rw [hval, beforeSlash_of_no_slash _ hv2]

/-- The amended C32 on `x reason/Created<tab>pod created`, where the token with the tab is
the second of three: the value stored under `reason` is `Created<tab>pod`. -/
theorem AnnotationsFromMessage_splits_on_space_only_witness :
    ∃ annotations,
      AnnotationsFromMessage "x reason/Created\tpod created" = some annotations
        ∧ annotations "reason" = some ("Created" ++ String.singleton '\t' ++ "pod") :=
  match AnnotationsFromMessage_splits_on_space_only "x reason/Created\tpod created"
      ["x"] ["created"] "reason" "Created" "pod" '\t' (Or.inl rfl) (by decide) (by decide)
      (fun t ht r => by
        rw [List.mem_singleton] at ht
        subst ht
        rw [show stringsCut "created" '/' = none from by decide]
        exact fun h => Option.noConfusion h) with
  | ⟨_, annotations, h1, _, h3⟩ => ⟨annotations, h1, h3 (by decide) (by decide)⟩

end Monitorapi
